import Mathlib

/-!
Verification model of the `userserversd` per-user service supervisor.

The daemon's core is shallowly embedded:
  - `src/ipc/mod.rs`: the `0xFF`-terminated JSON wire codec (`read_from_stream`,
    `write_to_stream`), modelled over byte lists (`List Nat`), together with a
    byte-level model of `serde_json` rendering and parsing restricted to the
    grammar the wire messages use (null, booleans, strings, arrays, objects).
  - `src/ipc/command.rs`, `src/ipc/response.rs`: the `Command` and `Response`
    message types and their externally-tagged JSON encodings.
  - `src/service.rs`: the child-process handle (`Command::stop`) and the
    `Service` start/stop/restart state machine, with OS interaction
    (spawn / wait / signal outcomes) supplied by explicit world records.
  - `src/service_manager.rs`: the registry (`ServiceManager`) operations and
    their persistence (`flush`) effects, and configuration-path resolution.
  - `src/userserversd_main.rs`: the per-command dispatch and response wrapping
    of `handle_client`.

Strings that travel on the wire are modelled as their UTF-8 byte lists
(`Bytes := List Nat`); a Rust `String` is always valid UTF-8, so the byte
`0xFF` never occurs in it, which is recorded as an explicit wellformedness
hypothesis where the framing argument needs it.
-/

namespace Usd

/-- Byte strings: UTF-8 bytes of a Rust `String`, or raw wire bytes. -/
abbrev Bytes := List Nat

/-- Bytes of an ASCII string literal (all literals used here are ASCII,
    where UTF-8 agrees with the code points). -/
def ascii (s : String) : Bytes := s.toList.map Char.toNat

/-- Model of `std::io::Error` values the embedded code distinguishes. -/
inductive IOErr where
  | invalidInput
  | invalidData
  | notFound
  | other (code : Nat)
deriving DecidableEq, Repr

/-! ## JSON values

The wire grammar of this program (`serde_json` output for `Command`,
`Response` and the configuration map) uses only null, booleans, strings,
arrays and objects — never numbers. Values are a mutual inductive so that
structural recursion and induction over arrays and objects stay elementary. -/

mutual

inductive Json where
  | null
  | bool (b : Bool)
  | str (s : Bytes)
  | arr (elems : JArr)
  | obj (fields : JObj)
deriving DecidableEq, Repr

inductive JArr where
  | nil
  | cons (hd : Json) (tl : JArr)
deriving DecidableEq, Repr

inductive JObj where
  | nil
  | cons (key : Bytes) (val : Json) (tl : JObj)
deriving DecidableEq, Repr

end

/-! ## Rendering (the `serde_json::to_vec` surface)

`serde_json` emits compact output (no whitespace), escapes `"` and `\` and
the two-character forms of BS, TAB, LF, FF, CR, renders all other control
bytes as `\u00XX` with lowercase hex, and passes every byte `≥ 0x20`
(including multi-byte UTF-8 sequences) through unescaped. -/

/-- Lowercase hexadecimal digit byte for `d < 16`. -/
def hexDigit (d : Nat) : Nat :=
  if d < 10 then 48 + d else 87 + d

/-- The escaped rendering of one string byte, as `serde_json` writes it. -/
def escapeByte (b : Nat) : Bytes :=
  if b = 34 then [92, 34]
  else if b = 92 then [92, 92]
  else if b = 8 then [92, 98]
  else if b = 9 then [92, 116]
  else if b = 10 then [92, 110]
  else if b = 12 then [92, 102]
  else if b = 13 then [92, 114]
  else if b < 32 then [92, 117, 48, 48, hexDigit (b / 16), hexDigit (b % 16)]
  else [b]

/-- Rendering of a string body (without the delimiting quotes). -/
def renderStrBody : Bytes → Bytes
  | [] => []
  | b :: bs => escapeByte b ++ renderStrBody bs

/-- A JSON string literal: quote, escaped body, quote. -/
def renderStr (s : Bytes) : Bytes := 34 :: (renderStrBody s ++ [34])

mutual

/-- Compact rendering of a JSON value, byte for byte as `serde_json` emits it. -/
def renderJson : Json → Bytes
  | .null => [110, 117, 108, 108]
  | .bool true => [116, 114, 117, 101]
  | .bool false => [102, 97, 108, 115, 101]
  | .str s => renderStr s
  | .arr es => 91 :: (renderArr es ++ [93])
  | .obj fs => 123 :: (renderObj fs ++ [125])

/-- Array body: comma-separated renderings of the elements. -/
def renderArr : JArr → Bytes
  | .nil => []
  | .cons v tl => renderJson v ++ renderArrTl tl

/-- Continuation of an array body after the first element. -/
def renderArrTl : JArr → Bytes
  | .nil => []
  | .cons v tl => 44 :: (renderJson v ++ renderArrTl tl)

/-- Object body: comma-separated `"key":value` pairs. -/
def renderObj : JObj → Bytes
  | .nil => []
  | .cons k v tl => renderStr k ++ 58 :: (renderJson v ++ renderObjTl tl)

/-- Continuation of an object body after the first member. -/
def renderObjTl : JObj → Bytes
  | .nil => []
  | .cons k v tl => 44 :: (renderStr k ++ 58 :: (renderJson v ++ renderObjTl tl))

end

/-! ## Parsing

A recursive-descent parser over the byte list, total by a fuel argument.
It accepts exactly the compact grammar above, which is all that the
round-trip and framing claims exercise. -/

/-- Value of a hexadecimal digit byte. -/
def hexVal (b : Nat) : Option Nat :=
  if 48 ≤ b ∧ b ≤ 57 then some (b - 48)
  else if 97 ≤ b ∧ b ≤ 102 then some (b - 87)
  else if 65 ≤ b ∧ b ≤ 70 then some (b - 55)
  else none

/-- Value of a two-character escape's second byte, when legal. -/
def shortUnescape (e : Nat) : Option Nat :=
  if e = 34 then some 34
  else if e = 92 then some 92
  else if e = 98 then some 8
  else if e = 116 then some 9
  else if e = 110 then some 10
  else if e = 102 then some 12
  else if e = 114 then some 13
  else none

/-- Parse a string body up to (and consuming) the closing quote. -/
def parseStrBody : Bytes → Option (Bytes × Bytes)
  | [] => none
  | b :: rest =>
    if b = 34 then some ([], rest)
    else if b = 92 then
      match rest with
      | 117 :: h1 :: h2 :: h3 :: h4 :: r2 =>
        match hexVal h1, hexVal h2, hexVal h3, hexVal h4 with
        | some v1, some v2, some v3, some v4 =>
          (parseStrBody r2).map fun p => ((((v1 * 16 + v2) * 16 + v3) * 16 + v4) :: p.1, p.2)
        | _, _, _, _ => none
      | e :: r2 =>
        (shortUnescape e).bind fun v =>
          (parseStrBody r2).map fun p => (v :: p.1, p.2)
      | [] => none
    else (parseStrBody rest).map fun p => (b :: p.1, p.2)

mutual

/-- Parse one JSON value; `fuel` strictly exceeds the remaining nesting work. -/
def parseVal : Nat → Bytes → Option (Json × Bytes)
  | 0, _ => none
  | _ + 1, 110 :: 117 :: 108 :: 108 :: rest => some (.null, rest)
  | _ + 1, 116 :: 114 :: 117 :: 101 :: rest => some (.bool true, rest)
  | _ + 1, 102 :: 97 :: 108 :: 115 :: 101 :: rest => some (.bool false, rest)
  | _ + 1, 34 :: rest =>
    (parseStrBody rest).map fun p => (.str p.1, p.2)
  | fuel + 1, 91 :: rest =>
    ((match rest with
      | [] => none
      | b :: r =>
        if b = 93 then some (JArr.nil, r)
        else parseArrBody fuel (b :: r) : Option (JArr × Bytes))).map
      fun p => (.arr p.1, p.2)
  | fuel + 1, 123 :: rest =>
    ((match rest with
      | [] => none
      | b :: r =>
        if b = 125 then some (JObj.nil, r)
        else parseObjBody fuel (b :: r) : Option (JObj × Bytes))).map
      fun p => (.obj p.1, p.2)
  | _ + 1, _ => none

/-- Parse one-or-more array elements and the closing `]`. -/
def parseArrBody : Nat → Bytes → Option (JArr × Bytes)
  | 0, _ => none
  | fuel + 1, bs =>
    match parseVal fuel bs with
    | some (v, r) =>
      match r with
      | [] => none
      | b :: r2 =>
        if b = 93 then some (.cons v .nil, r2)
        else if b = 44 then
          (parseArrBody fuel r2).map fun p => (.cons v p.1, p.2)
        else none
    | none => none

/-- Parse one-or-more object members and the closing `}`. -/
def parseObjBody : Nat → Bytes → Option (JObj × Bytes)
  | 0, _ => none
  | fuel + 1, bs =>
    match bs with
    | [] => none
    | b :: bs1 =>
      if b = 34 then
        match parseStrBody bs1 with
        | some (k, r1) =>
          match r1 with
          | [] => none
          | c :: r2 =>
            if c = 58 then
              match parseVal fuel r2 with
              | some (v, r3) =>
                match r3 with
                | [] => none
                | d :: r4 =>
                  if d = 125 then some (.cons k v .nil, r4)
                  else if d = 44 then
                    (parseObjBody fuel r4).map fun p => (.cons k v p.1, p.2)
                  else none
              | none => none
            else none
        | none => none
      else none

end

/-- Parse a complete JSON document: the whole input must be consumed, as
    `serde_json::from_slice` requires. -/
def parseJson (bs : Bytes) : Option Json :=
  match parseVal (bs.length + 1) bs with
  | some (v, []) => some v
  | _ => none

/-! ## Wire message types (`src/ipc/mod.rs`, `command.rs`, `response.rs`) -/

namespace ipc

/-- `ipc::ServiceKind`: the persisted/wire service-kind variant. -/
inductive ServiceKind where
  | synchronous (command : List Bytes)
  | asynchronous (start_command : List Bytes) (stop_command : List Bytes)
deriving DecidableEq, Repr

/-- `ipc::Service`: the wire snapshot of a service definition. The
    `environment` map is modelled as an association list in iteration order. -/
structure Service where
  working_directory : Bytes
  environment : List (Bytes × Bytes)
  group : Option Bytes
  kind : ServiceKind
deriving DecidableEq, Repr

/-- `ipc::command::Command`: the client-to-daemon message. -/
inductive Command where
  | addSynchronousService (name : Bytes) (working_directory : Bytes)
      (environment : List (Bytes × Bytes)) (group : Option Bytes)
      (command : List Bytes)
  | addAsynchronousService (name : Bytes) (working_directory : Bytes)
      (environment : List (Bytes × Bytes)) (group : Option Bytes)
      (start_command : List Bytes) (stop_command : List Bytes)
  | removeService (name : Bytes)
  | startService (name : Bytes)
  | stopService (name : Bytes)
  | restartService (name : Bytes)
  | getServiceStatus (name : Bytes)
  | listServices
deriving DecidableEq, Repr

/-- `ipc::response::ResponseStatus`. -/
inductive ResponseStatus where
  | ok
  | serviceAlreadyExists
  | serviceDoesNotExist
deriving DecidableEq, Repr

/-- `ipc::response::ResponseKind`. -/
inductive ResponseKind where
  | none
  | serviceStatus (service : Service) (running : Bool) (logs : Bytes)
  | serviceList (services : List (Bytes × Service))
deriving DecidableEq, Repr

/-- `ipc::response::Response`. -/
structure Response where
  status : ResponseStatus
  kind : ResponseKind
deriving DecidableEq, Repr

end ipc

/-! ## Message encodings (the `serde` derive surface)

Enums are externally tagged: a unit variant is its name as a JSON string,
a struct variant is a one-member object `{"Variant":{fields...}}`. Struct
and variant fields appear in declaration order; maps iterate in the order
of the modelling association list. -/

/-- A JSON array of strings. -/
def jStrArr (xs : List Bytes) : JArr :=
  xs.foldr (fun s a => .cons (.str s) a) .nil

/-- A JSON object for a string-to-string map. -/
def jStrMap (env : List (Bytes × Bytes)) : JObj :=
  env.foldr (fun kv a => .cons kv.1 (.str kv.2) a) .nil

/-- `Option<String>` serialization: `null` or the string. -/
def jOptStr : Option Bytes → Json
  | none => .null
  | some s => .str s

/-- Encoding of `ipc::ServiceKind`. -/
def encodeServiceKind : ipc.ServiceKind → Json
  | .synchronous command =>
    .obj (.cons (ascii "Synchronous")
      (.obj (.cons (ascii "command") (.arr (jStrArr command)) .nil)) .nil)
  | .asynchronous start_command stop_command =>
    .obj (.cons (ascii "Asynchronous")
      (.obj (.cons (ascii "start_command") (.arr (jStrArr start_command))
        (.cons (ascii "stop_command") (.arr (jStrArr stop_command)) .nil))) .nil)

/-- Encoding of `ipc::Service`. -/
def encodeService (s : ipc.Service) : Json :=
  .obj (.cons (ascii "working_directory") (.str s.working_directory)
    (.cons (ascii "environment") (.obj (jStrMap s.environment))
      (.cons (ascii "group") (jOptStr s.group)
        (.cons (ascii "kind") (encodeServiceKind s.kind) .nil))))

/-- Encoding of `ipc::command::Command`. -/
def encodeCommand : ipc.Command → Json
  | .addSynchronousService name wd env group command =>
    .obj (.cons (ascii "AddSynchronousService")
      (.obj (.cons (ascii "name") (.str name)
        (.cons (ascii "working_directory") (.str wd)
          (.cons (ascii "environment") (.obj (jStrMap env))
            (.cons (ascii "group") (jOptStr group)
              (.cons (ascii "command") (.arr (jStrArr command)) .nil)))))) .nil)
  | .addAsynchronousService name wd env group sc tc =>
    .obj (.cons (ascii "AddAsynchronousService")
      (.obj (.cons (ascii "name") (.str name)
        (.cons (ascii "working_directory") (.str wd)
          (.cons (ascii "environment") (.obj (jStrMap env))
            (.cons (ascii "group") (jOptStr group)
              (.cons (ascii "start_command") (.arr (jStrArr sc))
                (.cons (ascii "stop_command") (.arr (jStrArr tc)) .nil))))))) .nil)
  | .removeService name =>
    .obj (.cons (ascii "RemoveService")
      (.obj (.cons (ascii "name") (.str name) .nil)) .nil)
  | .startService name =>
    .obj (.cons (ascii "StartService")
      (.obj (.cons (ascii "name") (.str name) .nil)) .nil)
  | .stopService name =>
    .obj (.cons (ascii "StopService")
      (.obj (.cons (ascii "name") (.str name) .nil)) .nil)
  | .restartService name =>
    .obj (.cons (ascii "RestartService")
      (.obj (.cons (ascii "name") (.str name) .nil)) .nil)
  | .getServiceStatus name =>
    .obj (.cons (ascii "GetServiceStatus")
      (.obj (.cons (ascii "name") (.str name) .nil)) .nil)
  | .listServices => .str (ascii "ListServices")

/-- Encoding of `ipc::response::ResponseStatus` (unit variants). -/
def encodeStatus : ipc.ResponseStatus → Json
  | .ok => .str (ascii "Ok")
  | .serviceAlreadyExists => .str (ascii "ServiceAlreadyExists")
  | .serviceDoesNotExist => .str (ascii "ServiceDoesNotExist")

/-- A JSON object mapping names to encoded services. -/
def jServiceMap (xs : List (Bytes × ipc.Service)) : JObj :=
  xs.foldr (fun kv a => .cons kv.1 (encodeService kv.2) a) .nil

/-- Encoding of `ipc::response::ResponseKind`. -/
def encodeResponseKind : ipc.ResponseKind → Json
  | .none => .str (ascii "None")
  | .serviceStatus service running logs =>
    .obj (.cons (ascii "ServiceStatus")
      (.obj (.cons (ascii "service") (encodeService service)
        (.cons (ascii "running") (.bool running)
          (.cons (ascii "logs") (.str logs) .nil)))) .nil)
  | .serviceList services =>
    .obj (.cons (ascii "ServiceList")
      (.obj (.cons (ascii "services") (.obj (jServiceMap services)) .nil)) .nil)

/-- Encoding of `ipc::response::Response`. -/
def encodeResponse (r : ipc.Response) : Json :=
  .obj (.cons (ascii "status") (encodeStatus r.status)
    (.cons (ascii "kind") (encodeResponseKind r.kind) .nil))

/-! ## Message decodings

The decoders model the derived `serde` deserializers on the wire surface:
an externally tagged enum reads the single member of a one-member object
(or a bare string for a unit variant); struct fields are looked up by name
(unknown fields are ignored, as `serde` does by default); a missing
`Option` field defaults to `None`. -/

/-- First value bound to `key`, ignoring other members. -/
def JObj.find : JObj → Bytes → Option Json
  | .nil, _ => Option.none
  | .cons k v tl, key => if k = key then some v else JObj.find tl key

/-- Decode a JSON value as a string. -/
def decodeStr : Json → Option Bytes
  | .str s => some s
  | _ => none

/-- Decode a JSON array of strings. -/
def decodeStrArrAux : JArr → Option (List Bytes)
  | .nil => some []
  | .cons (.str s) tl => (decodeStrArrAux tl).map (s :: ·)
  | .cons _ _ => none

/-- Decode a JSON value as a `Vec<String>`. -/
def decodeStrList : Json → Option (List Bytes)
  | .arr es => decodeStrArrAux es
  | _ => none

/-- Decode a JSON object as a string-to-string map (in member order). -/
def decodeStrMapAux : JObj → Option (List (Bytes × Bytes))
  | .nil => some []
  | .cons k (.str v) tl => (decodeStrMapAux tl).map ((k, v) :: ·)
  | .cons _ _ _ => none

/-- Decode a JSON value as a `HashMap<String, String>`. -/
def decodeStrMap : Json → Option (List (Bytes × Bytes))
  | .obj fs => decodeStrMapAux fs
  | _ => none

/-- Decode an optional string field (missing or `null` is `None`). -/
def decodeOptStr : Option Json → Option (Option Bytes)
  | Option.none => some Option.none
  | some .null => some Option.none
  | some (.str s) => some (some s)
  | some _ => none

/-- Decode `ipc::ServiceKind`. -/
def decodeServiceKind : Json → Option ipc.ServiceKind
  | .obj (.cons tag payload .nil) =>
    if tag = ascii "Synchronous" then
      match payload with
      | .obj fs =>
        match (JObj.find fs (ascii "command")).bind decodeStrList with
        | some command => some (.synchronous command)
        | Option.none => none
      | _ => none
    else if tag = ascii "Asynchronous" then
      match payload with
      | .obj fs =>
        match (JObj.find fs (ascii "start_command")).bind decodeStrList,
              (JObj.find fs (ascii "stop_command")).bind decodeStrList with
        | some sc, some tc => some (.asynchronous sc tc)
        | _, _ => none
      | _ => none
    else none
  | _ => none

/-- Decode `ipc::Service`. -/
def decodeService : Json → Option ipc.Service
  | .obj fs =>
    match (JObj.find fs (ascii "working_directory")).bind decodeStr,
          (JObj.find fs (ascii "environment")).bind decodeStrMap,
          decodeOptStr (JObj.find fs (ascii "group")),
          (JObj.find fs (ascii "kind")).bind decodeServiceKind with
    | some wd, some env, some group, some kind => some ⟨wd, env, group, kind⟩
    | _, _, _, _ => none
  | _ => none

/-- Decode `ipc::command::Command`. -/
def decodeCommand : Json → Option ipc.Command
  | .str s => if s = ascii "ListServices" then some .listServices else none
  | .obj (.cons tag payload .nil) =>
    if tag = ascii "AddSynchronousService" then
      match payload with
      | .obj fs =>
        match (JObj.find fs (ascii "name")).bind decodeStr,
              (JObj.find fs (ascii "working_directory")).bind decodeStr,
              (JObj.find fs (ascii "environment")).bind decodeStrMap,
              decodeOptStr (JObj.find fs (ascii "group")),
              (JObj.find fs (ascii "command")).bind decodeStrList with
        | some name, some wd, some env, some group, some command =>
          some (.addSynchronousService name wd env group command)
        | _, _, _, _, _ => none
      | _ => none
    else if tag = ascii "AddAsynchronousService" then
      match payload with
      | .obj fs =>
        match (JObj.find fs (ascii "name")).bind decodeStr,
              (JObj.find fs (ascii "working_directory")).bind decodeStr,
              (JObj.find fs (ascii "environment")).bind decodeStrMap,
              decodeOptStr (JObj.find fs (ascii "group")),
              (JObj.find fs (ascii "start_command")).bind decodeStrList,
              (JObj.find fs (ascii "stop_command")).bind decodeStrList with
        | some name, some wd, some env, some group, some sc, some tc =>
          some (.addAsynchronousService name wd env group sc tc)
        | _, _, _, _, _, _ => none
      | _ => none
    else if tag = ascii "RemoveService" then
      match payload with
      | .obj fs =>
        ((JObj.find fs (ascii "name")).bind decodeStr).map .removeService
      | _ => none
    else if tag = ascii "StartService" then
      match payload with
      | .obj fs =>
        ((JObj.find fs (ascii "name")).bind decodeStr).map .startService
      | _ => none
    else if tag = ascii "StopService" then
      match payload with
      | .obj fs =>
        ((JObj.find fs (ascii "name")).bind decodeStr).map .stopService
      | _ => none
    else if tag = ascii "RestartService" then
      match payload with
      | .obj fs =>
        ((JObj.find fs (ascii "name")).bind decodeStr).map .restartService
      | _ => none
    else if tag = ascii "GetServiceStatus" then
      match payload with
      | .obj fs =>
        ((JObj.find fs (ascii "name")).bind decodeStr).map .getServiceStatus
      | _ => none
    else none
  | _ => none

/-- Decode `ipc::response::ResponseStatus`. -/
def decodeStatus : Json → Option ipc.ResponseStatus
  | .str s =>
    if s = ascii "Ok" then some .ok
    else if s = ascii "ServiceAlreadyExists" then some .serviceAlreadyExists
    else if s = ascii "ServiceDoesNotExist" then some .serviceDoesNotExist
    else none
  | _ => none

/-- Decode a name-to-service map (in member order). -/
def decodeServiceMapAux : JObj → Option (List (Bytes × ipc.Service))
  | .nil => some []
  | .cons k v tl =>
    match decodeService v with
    | some s => (decodeServiceMapAux tl).map ((k, s) :: ·)
    | Option.none => none

/-- Decode a JSON value as a `HashMap<String, Service>`. -/
def decodeServiceMap : Json → Option (List (Bytes × ipc.Service))
  | .obj fs => decodeServiceMapAux fs
  | _ => none

/-- Decode `ipc::response::ResponseKind`. -/
def decodeResponseKind : Json → Option ipc.ResponseKind
  | .str s => if s = ascii "None" then some .none else none
  | .obj (.cons tag payload .nil) =>
    if tag = ascii "ServiceStatus" then
      match payload with
      | .obj fs =>
        match (JObj.find fs (ascii "service")).bind decodeService,
              JObj.find fs (ascii "running"),
              (JObj.find fs (ascii "logs")).bind decodeStr with
        | some service, some (.bool running), some logs =>
          some (.serviceStatus service running logs)
        | _, _, _ => none
      | _ => none
    else if tag = ascii "ServiceList" then
      match payload with
      | .obj fs =>
        ((JObj.find fs (ascii "services")).bind decodeServiceMap).map .serviceList
      | _ => none
    else none
  | _ => none

/-- Decode `ipc::response::Response`. -/
def decodeResponse : Json → Option ipc.Response
  | .obj fs =>
    match (JObj.find fs (ascii "status")).bind decodeStatus,
          (JObj.find fs (ascii "kind")).bind decodeResponseKind with
    | some status, some kind => some ⟨status, kind⟩
    | _, _ => none
  | _ => none

/-! ## The stream codec (`ipc::read_from_stream` / `ipc::write_to_stream`)

A stream is its pending byte list. `read_until(255, ..)` consumes bytes up
to and including the first `255`, or every remaining byte when end-of-stream
comes first; the code then pops the final byte (whatever it was) and parses
the remainder as JSON, turning a `serde_json` failure into an I/O error.

Two read models are given. `read_from_stream` is the byte-exact
idealization: the bytes after the terminator remain on the stream. It
coincides with the code whenever the read drains the stream to
end-of-stream (the clean-close and partial-frame scenarios), because then
there is nothing to over-read. `read_from_stream_buffered` below is the
general model: the Rust function wraps the stream in a **fresh
`BufReader` per call**, whose fills may read past the terminator; the
over-read bytes sit in the reader's buffer and are lost when it is
dropped at function return. -/

/-- Model of `ipc::read_from_stream` at byte granularity (no lookahead
    loss), parameterized by the payload decoder. Returns the optional
    decoded message and the bytes left on the stream. Faithful to the code
    exactly when no byte follows the consumed frame or the underlying
    reads return one byte at a time. -/
def read_from_stream (dec : Json → Option α) (stream : Bytes) :
    Except IOErr (Option α × Bytes) :=
  let frame := stream.takeWhile (fun b => b ≠ 255)
  let found := decide (frame.length < stream.length)
  let bytes := if found then frame ++ [255] else frame
  let rest := if found then stream.drop (frame.length + 1) else []
  if bytes.isEmpty then .ok (Option.none, rest)
  else
    match (parseJson bytes.dropLast).bind dec with
    | some v => .ok (some v, rest)
    | Option.none => .error .invalidData

/-- Model of `ipc::write_to_stream`: the bytes appended to the stream. -/
def write_to_stream (enc : α → Json) (x : α) : Bytes :=
  renderJson (enc x) ++ [255]

/-- `Command::read_from_stream`. -/
def ipc.Command.read_from_stream (stream : Bytes) :
    Except IOErr (Option ipc.Command × Bytes) :=
  Usd.read_from_stream decodeCommand stream

/-- `Command::write_to_stream`. -/
def ipc.Command.write_to_stream (c : ipc.Command) : Bytes :=
  Usd.write_to_stream encodeCommand c

/-- `Response::read_from_stream`. -/
def ipc.Response.read_from_stream (stream : Bytes) :
    Except IOErr (Option ipc.Response × Bytes) :=
  Usd.read_from_stream decodeResponse stream

/-- `Response::write_to_stream`. -/
def ipc.Response.write_to_stream (r : ipc.Response) : Bytes :=
  Usd.write_to_stream encodeResponse r

/-- Size of one underlying `read` into the `BufReader`'s 8 KiB buffer: at
    least one byte while data remains, at most the buffer capacity; the
    head of the schedule (when present) chooses the amount within those
    bounds, a later or absent entry defaults to a full fill. -/
def fillSize (fills : List Nat) : Nat :=
  match fills with
  | [] => 8192
  | f :: _ => min (max f 1) 8192

/-- Model of `BufReader::new(stream).read_until(255, &mut bytes)` together
    with the drop of that `BufReader` at the end of `read_from_stream`.
    Fills are taken from the schedule until the terminator is found in a
    chunk or the stream is exhausted. Returns the bytes handed to the
    caller (through the terminator, or everything at end-of-stream) and
    the bytes still on the underlying stream afterwards. Bytes the final
    fill read **past** the terminator appear in neither component: they
    were buffered and are lost when the reader is dropped. -/
def bufReadUntil (fills : List Nat) (stream : Bytes) : Bytes × Bytes :=
  if h : stream = [] then ([], [])
  else
    let n := fillSize fills
    let chunk := stream.take n
    let pre := chunk.takeWhile (fun b => b ≠ 255)
    if pre.length < chunk.length then (pre ++ [255], stream.drop n)
    else
      let r := bufReadUntil fills.tail (stream.drop n)
      (chunk ++ r.1, r.2)
termination_by stream.length
decreasing_by
  simp only [List.length_drop]
  have h1 : 1 ≤ fillSize fills := by
    cases fills with
    | nil => simp [fillSize]
    | cons f t =>
      simp [fillSize]
  have h2 : 0 < stream.length := List.length_pos.mpr h
  omega

/-- Model of `ipc::read_from_stream` with the per-call `BufReader` made
    explicit: read through the next terminator (losing whatever the final
    fill over-read), pop the last byte, parse. The fill schedule is the
    nondeterminism of how many bytes each underlying read returns. -/
def read_from_stream_buffered (dec : Json → Option α) (fills : List Nat)
    (stream : Bytes) : Except IOErr (Option α × Bytes) :=
  let br := bufReadUntil fills stream
  if br.1.isEmpty then .ok (Option.none, br.2)
  else
    match (parseJson br.1.dropLast).bind dec with
    | some v => .ok (some v, br.2)
    | Option.none => .error .invalidData

/-! ## The child-process handle (`service::Command`, `src/service.rs`)

`Command::stop` interacts with the operating system through signal
delivery, `try_wait` polling and a final `kill`. Those interactions are
supplied by a `StopWorld`: the outcome of the k-th `SIGINT` delivery, the
outcome of the n-th `try_wait` call (counted across all five rounds), and
the outcome of a `SIGKILL` delivered to a not-yet-reaped process. -/

namespace service

/-- One `try_wait` observation: still running (`Ok(None)`), exited
    (`Ok(Some(status))`, which reaps the child), or a wait error. -/
inductive TryWaitRes where
  | stillRunning
  | exited
  | failed (e : IOErr)

/-- OS behavior during one `Command::stop` call. -/
structure StopWorld where
  sigintRes : Nat → Except IOErr Unit
  tryWaitRes : Nat → TryWaitRes
  killRes : Except IOErr Unit

/-- Outcome of one 30-second polling round. -/
inductive PollOutcome where
  | timedOut
  | reaped
  | waitFailed
deriving DecidableEq, Repr

/-- The inner polling loop of `Command::stop`: `try_wait` every 2 seconds
    (`timeout / 15`) until the 30-second deadline passes or `try_wait`
    stops returning `Ok(None)`. `n` counts `try_wait` calls, `t` is the
    elapsed time in seconds within this round. -/
def pollLoop (w : StopWorld) (n t : Nat) : Nat × PollOutcome :=
  match w.tryWaitRes n with
  | .stillRunning =>
    if t > 30 then (n + 1, .timedOut)
    else pollLoop w (n + 1) (t + 2)
  | .exited => (n + 1, .reaped)
  | .failed _ => (n + 1, .waitFailed)
termination_by 31 - t

/-- The `'kill_attempt` loop of `Command::stop` with `r` rounds left,
    followed by the unconditional `child.kill()`.

    `child.kill()` is Rust's `std::process::Child::kill`: if the child has
    already been reaped by this handle (a `try_wait` returned an exit
    status), it does not issue a signal and returns an `InvalidInput`
    error ("invalid argument: can't kill an exited process"); otherwise it
    delivers `SIGKILL`, with the world-supplied result. -/
def stopRounds (w : StopWorld) : Nat → Nat → Except IOErr Unit
  | 0, _ => w.killRes
  | r + 1, n =>
    match w.sigintRes (5 - (r + 1)) with
    | .error e => .error e
    | .ok _ =>
      match pollLoop w n 0 with
      | (n2, .timedOut) => stopRounds w r n2
      | (_, .reaped) => .error .invalidInput
      | (_, .waitFailed) => w.killRes

/-- `service::Command::stop`. -/
def Command.stop (w : StopWorld) : Except IOErr Unit :=
  stopRounds w 5 0

/-! ## The `Service` state machine (`src/service.rs`) -/

/-- `service::ServiceError`. -/
inductive ServiceError where
  | ioError (e : IOErr)
  | serviceNotRunning
  | serviceAlreadyRunning
deriving DecidableEq, Repr

/-- `service::ServiceKind`. -/
inductive ServiceKind where
  | synchronous (command : List Bytes)
  | asynchronous (start_command : List Bytes) (stop_command : List Bytes)
deriving DecidableEq, Repr

/-- `service::Service`: the persisted definition plus runtime state. The
    retained synchronous child handle is modelled by its presence; the log
    buffer by its current contents. -/
structure Service where
  working_directory : Bytes
  environment : List (Bytes × Bytes)
  group : Option Bytes
  kind : ServiceKind
  async_running : Bool
  child : Bool
  logs : Bytes
deriving DecidableEq, Repr

/-- `Service::new`. -/
def Service.new (working_directory : Bytes) (environment : List (Bytes × Bytes))
    (group : Option Bytes) (kind : ServiceKind) : Service :=
  ⟨working_directory, environment, group, kind, false, false, []⟩

/-- Outcome of a spawn: the spawn itself can fail, and if it succeeds the
    eventual `wait()` either fails at the OS level or returns the child's
    numeric exit status (`0` is success, anything else is not). -/
inductive SpawnRes where
  | err (e : IOErr)
  | ok (wait : Except IOErr Nat)

/-- OS behavior during one `Service` operation: outcome of the spawn the
    start path performs, of the spawn the asynchronous stop path performs,
    and of `Command::stop` on the retained synchronous child. -/
structure RunWorld where
  startSpawn : SpawnRes
  stopSpawn : SpawnRes
  childStop : Except IOErr Unit

/-- Result of a `Service` operation: a Rust panic (an unguarded `command[0]`
    on an empty vector), success, or a returned `ServiceError`. -/
inductive StepRes where
  | panicked
  | ok
  | err (e : ServiceError)
deriving DecidableEq, Repr

/-- `Service::is_running`. -/
def Service.is_running (s : Service) : Bool :=
  match s.kind with
  | .synchronous _ => s.child
  | .asynchronous _ _ => s.async_running

/-- `Service::start_synchronous`: `Command::start` indexes `command[0]`
    without a guard (panic on empty), spawns, and retains the handle. -/
def Service.start_synchronous (w : RunWorld) (s : Service) (command : List Bytes) :
    StepRes × Service :=
  match command with
  | [] => (.panicked, s)
  | _ :: _ =>
    match w.startSpawn with
    | .err e => (.err (.ioError e), s)
    | .ok _ => (.ok, { s with child := true })

/-- `Service::start_asynchronous`: spawn the start command, wait for it,
    and on a non-error `wait()` set `async_running` — the exit status
    itself is never inspected. -/
def Service.start_asynchronous (w : RunWorld) (s : Service) (start_command : List Bytes) :
    StepRes × Service :=
  match start_command with
  | [] => (.panicked, s)
  | _ :: _ =>
    match w.startSpawn with
    | .err e => (.err (.ioError e), s)
    | .ok wait =>
      match wait with
      | .error e => (.err (.ioError e), s)
      | .ok _status => (.ok, { s with async_running := true })

/-- `Service::start`. -/
def Service.start (w : RunWorld) (s : Service) : StepRes × Service :=
  if s.is_running then (.err .serviceAlreadyRunning, s)
  else
    match s.kind with
    | .synchronous command => s.start_synchronous w command
    | .asynchronous start_command _ => s.start_asynchronous w start_command

/-- `Service::stop_synchronous`: `Command::stop` on the retained handle;
    only on success is the handle discarded. -/
def Service.stop_synchronous (w : RunWorld) (s : Service) : StepRes × Service :=
  if s.child then
    match w.childStop with
    | .error e => (.err (.ioError e), s)
    | .ok _ => (.ok, { s with child := false })
  else (.err .serviceNotRunning, s)

/-- `Service::stop_asynchronous`: spawn the stop command, wait for it, and
    on a non-error `wait()` clear `async_running`, again ignoring the exit
    status. -/
def Service.stop_asynchronous (w : RunWorld) (s : Service) (stop_command : List Bytes) :
    StepRes × Service :=
  match stop_command with
  | [] => (.panicked, s)
  | _ :: _ =>
    match w.stopSpawn with
    | .err e => (.err (.ioError e), s)
    | .ok wait =>
      match wait with
      | .error e => (.err (.ioError e), s)
      | .ok _status => (.ok, { s with async_running := false })

/-- `Service::stop`. -/
def Service.stop (w : RunWorld) (s : Service) : StepRes × Service :=
  if !s.is_running then (.err .serviceNotRunning, s)
  else
    match s.kind with
    | .synchronous _ => s.stop_synchronous w
    | .asynchronous _ stop_command => s.stop_asynchronous w stop_command

/-- `Service::restart`: `stop()?` then `start()`. -/
def Service.restart (w : RunWorld) (s : Service) : StepRes × Service :=
  match s.stop w with
  | (.ok, s2) => s2.start w
  | (r, s2) => (r, s2)

/-- `Service::get_logs`. -/
def Service.get_logs (s : Service) : Bytes := s.logs

end service

/-! ## The registry (`service_manager::ServiceManager`, `src/service_manager.rs`) -/

namespace service_manager

open service

/-- The persisted part of a `Service` (what `flush` serializes). -/
structure ServiceDef where
  working_directory : Bytes
  environment : List (Bytes × Bytes)
  group : Option Bytes
  kind : ServiceKind
deriving DecidableEq, Repr

/-- The definition snapshot of a service. -/
def defnOf (s : Service) : ServiceDef :=
  ⟨s.working_directory, s.environment, s.group, s.kind⟩

/-- `service_to_ipc_service`. -/
def service_to_ipc_service (s : Service) : ipc.Service :=
  { working_directory := s.working_directory
    environment := s.environment
    group := s.group
    kind :=
      match s.kind with
      | .synchronous command => .synchronous command
      | .asynchronous sc tc => .asynchronous sc tc }

/-- `ServiceManager`: the name-to-service map, as an association list with
    distinct names (insertion order fixed as iteration order). -/
structure ServiceManager where
  services : List (Bytes × Service)
deriving Repr

/-- Map lookup (`HashMap::get`). -/
def lookupSvc : List (Bytes × Service) → Bytes → Option Service
  | [], _ => none
  | (k, s) :: tl, name => if k = name then some s else lookupSvc tl name

/-- In-place update of the named entry (`HashMap::get_mut` mutation). -/
def updateSvc : List (Bytes × Service) → Bytes → Service → List (Bytes × Service)
  | [], _, _ => []
  | (k, s) :: tl, name, s2 =>
    if k = name then (k, s2) :: tl else (k, s) :: updateSvc tl name s2

/-- Entry removal (`HashMap::remove`). -/
def removeSvc : List (Bytes × Service) → Bytes → List (Bytes × Service)
  | [], _ => []
  | (k, s) :: tl, name => if k = name then tl else (k, s) :: removeSvc tl name

/-- What one `flush` call persists: the defined part of every service. -/
def defsOf (services : List (Bytes × Service)) : List (Bytes × ServiceDef) :=
  services.map (fun kv => (kv.1, defnOf kv.2))

/-- Result of a registry operation: a propagated panic, or the
    `Result<ResponseKind, ResponseStatus>` the operation returns. -/
inductive MgrRes where
  | panicked
  | ok (kind : ipc.ResponseKind)
  | err (status : ipc.ResponseStatus)
deriving DecidableEq, Repr

/-- A registry operation's complete observable outcome: its result, the
    registry state it leaves behind, and the list of configuration-file
    writes it attempted (each the snapshot `flush` serialized). -/
abbrev MgrOut := MgrRes × ServiceManager × List (List (Bytes × ServiceDef))

/-- `ServiceManager::add_synchronous`: reject an existing name before any
    mutation; otherwise insert, best-effort start (failure only logged),
    then persist. -/
def ServiceManager.add_synchronous (w : RunWorld) (m : ServiceManager)
    (name working_directory : Bytes) (environment : List (Bytes × Bytes))
    (group : Option Bytes) (command : List Bytes) : MgrOut :=
  if (lookupSvc m.services name).isSome then (.err .serviceAlreadyExists, m, [])
  else
    let s0 := Service.new working_directory environment group (.synchronous command)
    let services1 := m.services ++ [(name, s0)]
    match s0.start w with
    | (.panicked, _) => (.panicked, ⟨services1⟩, [])
    | (_, s1) =>
      let services2 := updateSvc services1 name s1
      (.ok .none, ⟨services2⟩, [defsOf services2])

/-- `ServiceManager::add_asynchronous`. -/
def ServiceManager.add_asynchronous (w : RunWorld) (m : ServiceManager)
    (name working_directory : Bytes) (environment : List (Bytes × Bytes))
    (group : Option Bytes) (start_command stop_command : List Bytes) : MgrOut :=
  if (lookupSvc m.services name).isSome then (.err .serviceAlreadyExists, m, [])
  else
    let s0 := Service.new working_directory environment group
      (.asynchronous start_command stop_command)
    let services1 := m.services ++ [(name, s0)]
    match s0.start w with
    | (.panicked, _) => (.panicked, ⟨services1⟩, [])
    | (_, s1) =>
      let services2 := updateSvc services1 name s1
      (.ok .none, ⟨services2⟩, [defsOf services2])

/-- `ServiceManager::remove`: missing name is an error; otherwise stop if
    running (failure only logged), remove the entry, persist. -/
def ServiceManager.remove (w : RunWorld) (m : ServiceManager) (name : Bytes) : MgrOut :=
  match lookupSvc m.services name with
  | none => (.err .serviceDoesNotExist, m, [])
  | some s =>
    if s.is_running then
      match s.stop w with
      | (.panicked, _) => (.panicked, m, [])
      | (_, s2) =>
        let services2 := removeSvc (updateSvc m.services name s2) name
        (.ok .none, ⟨services2⟩, [defsOf services2])
    else
      let services2 := removeSvc m.services name
      (.ok .none, ⟨services2⟩, [defsOf services2])

/-- `ServiceManager::start`: missing name is an error; a failing
    `Service::start` is logged and the operation still succeeds; nothing
    is persisted. -/
def ServiceManager.start (w : RunWorld) (m : ServiceManager) (name : Bytes) : MgrOut :=
  match lookupSvc m.services name with
  | none => (.err .serviceDoesNotExist, m, [])
  | some s =>
    match s.start w with
    | (.panicked, _) => (.panicked, m, [])
    | (_, s2) => (.ok .none, ⟨updateSvc m.services name s2⟩, [])

/-- `ServiceManager::stop`: same shape as `start`. -/
def ServiceManager.stop (w : RunWorld) (m : ServiceManager) (name : Bytes) : MgrOut :=
  match lookupSvc m.services name with
  | none => (.err .serviceDoesNotExist, m, [])
  | some s =>
    match s.stop w with
    | (.panicked, _) => (.panicked, m, [])
    | (_, s2) => (.ok .none, ⟨updateSvc m.services name s2⟩, [])

/-- `ServiceManager::restart`: same shape, invoking `Service::restart`. -/
def ServiceManager.restart (w : RunWorld) (m : ServiceManager) (name : Bytes) : MgrOut :=
  match lookupSvc m.services name with
  | none => (.err .serviceDoesNotExist, m, [])
  | some s =>
    match s.restart w with
    | (.panicked, _) => (.panicked, m, [])
    | (_, s2) => (.ok .none, ⟨updateSvc m.services name s2⟩, [])

/-- `ServiceManager::get_status`. -/
def ServiceManager.get_status (m : ServiceManager) (name : Bytes) : MgrOut :=
  match lookupSvc m.services name with
  | none => (.err .serviceDoesNotExist, m, [])
  | some s =>
    (.ok (.serviceStatus (service_to_ipc_service s) s.is_running s.get_logs), m, [])

/-- `ServiceManager::list_services`. -/
def ServiceManager.list_services (m : ServiceManager) : MgrOut :=
  (.ok (.serviceList (m.services.map (fun kv => (kv.1, service_to_ipc_service kv.2)))), m, [])

end service_manager

/-! ## Connection-handler dispatch (`handle_client`, `src/userserversd_main.rs`) -/

open service_manager in
/-- The dispatch of one decoded command to the registry operation, exactly
    the `match command` of `handle_client`. -/
def dispatchCommand (w : service.RunWorld) (c : ipc.Command) (m : ServiceManager) : MgrOut :=
  match c with
  | .addSynchronousService name wd env group command =>
    m.add_synchronous w name wd env group command
  | .addAsynchronousService name wd env group sc tc =>
    m.add_asynchronous w name wd env group sc tc
  | .removeService name => m.remove w name
  | .startService name => m.start w name
  | .stopService name => m.stop w name
  | .restartService name => m.restart w name
  | .getServiceStatus name => m.get_status name
  | .listServices => m.list_services

open service_manager in
/-- One iteration of `handle_client` after a command was decoded: dispatch
    under the registry guard, then wrap `Ok(kind)` as `{status: Ok, kind}`
    and `Err(status)` as `{status, kind: None}`. A panic produces no
    response (the handler thread dies). -/
def handle_client_step (w : service.RunWorld) (c : ipc.Command) (m : ServiceManager) :
    Option ipc.Response × ServiceManager × List (List (Bytes × ServiceDef)) :=
  match dispatchCommand w c m with
  | (.panicked, m2, evs) => (none, m2, evs)
  | (.ok kind, m2, evs) => (some ⟨.ok, kind⟩, m2, evs)
  | (.err status, m2, evs) => (some ⟨status, .none⟩, m2, evs)

/-! ## Configuration-file path resolution (`get_config_file_path`) -/

/-- A password-database entry (`nix::unistd::User`): the fields the code
    and the specification consult. -/
structure OsUser where
  name : String
  dir : String

/-- The process environment and filesystem facts `get_config_file_path`
    reads: `$XDG_CONFIG_HOME`, `$HOME`, the real and effective uids, the
    password-database lookup, and path existence. -/
structure OsEnv where
  xdg_config_home : Option String
  home : Option String
  uid : Nat
  euid : Nat
  user_from_uid : Nat → Option OsUser
  path_exists : String → Bool

/-- `service_manager::get_config_file_path`, as the code computes it: the
    passwd fallback uses `unistd::getuid()` (the real uid) and constructs
    `/home/<user.name>` (required to exist) rather than reading the
    entry's home directory. -/
def get_config_file_path (env : OsEnv) : Option String :=
  match env.xdg_config_home with
  | some config_dir => some (config_dir ++ "/userserversd_services.json")
  | none =>
    let homeRes : Option String :=
      match env.home with
      | some path => some path
      | none =>
        match env.user_from_uid env.uid with
        | some user =>
          let home := "/home/" ++ user.name
          if env.path_exists home then some home else none
        | none => none
    match homeRes with
    | none => none
    | some home =>
      if env.path_exists (home ++ "/.userserversd_services.json")
         || !env.path_exists (home ++ "/.config")
      then some (home ++ "/.userserversd_services.json")
      else some (home ++ "/.config/userserversd_services.json")

/-- The resolution algorithm exactly as claim C8 words it: the fallback
    home is the password-database entry for the **effective** uid (its
    home-directory field). Stated for comparison with the code's
    `get_config_file_path`. -/
def get_config_file_path_claim (env : OsEnv) : Option String :=
  match env.xdg_config_home with
  | some config_dir => some (config_dir ++ "/userserversd_services.json")
  | none =>
    let homeRes : Option String :=
      match env.home with
      | some path => some path
      | none => (env.user_from_uid env.euid).map OsUser.dir
    match homeRes with
    | none => none
    | some home =>
      if env.path_exists (home ++ "/.userserversd_services.json")
         || !env.path_exists (home ++ "/.config")
      then some (home ++ "/.userserversd_services.json")
      else some (home ++ "/.config/userserversd_services.json")

/-- The amended resolution algorithm (claim C8 corrected to the code): the
    fallback home is `/home/<name>` for the passwd entry of the **real**
    uid, and must exist. -/
def get_config_file_path_amended (env : OsEnv) : Option String :=
  let fallbackHome : Option String :=
    match env.user_from_uid env.uid with
    | some user =>
      if env.path_exists ("/home/" ++ user.name) then some ("/home/" ++ user.name)
      else none
    | none => none
  match env.xdg_config_home with
  | some config_dir => some (config_dir ++ "/userserversd_services.json")
  | none =>
    (env.home.orElse (fun _ => fallbackHome)).map fun home =>
      if env.path_exists (home ++ "/.userserversd_services.json")
         || !env.path_exists (home ++ "/.config")
      then home ++ "/.userserversd_services.json"
      else home ++ "/.config/userserversd_services.json"

/-! ## Size measures and wellformedness

`jsize*` bounds the parser fuel a value needs. `NoFF` states that the raw
string bytes of a value or message never contain `0xFF` — automatic for
Rust `String`s, which are valid UTF-8 — which is what makes the `0xFF`
terminator unambiguous on the wire. -/

mutual

/-- Fuel a value needs to parse. -/
def jsizeVal : Json → Nat
  | .null => 1
  | .bool _ => 1
  | .str _ => 1
  | .arr es => 1 + jsizeArr es
  | .obj fs => 1 + jsizeObj fs

/-- Fuel an array body needs. -/
def jsizeArr : JArr → Nat
  | .nil => 0
  | .cons v tl => 1 + jsizeVal v + jsizeArr tl

/-- Fuel an object body needs. -/
def jsizeObj : JObj → Nat
  | .nil => 0
  | .cons _ v tl => 1 + jsizeVal v + jsizeObj tl

end

mutual

/-- No string byte of the value is `0xFF`. -/
def Json.NoFF : Json → Prop
  | .null => True
  | .bool _ => True
  | .str s => 255 ∉ s
  | .arr es => JArr.NoFF es
  | .obj fs => JObj.NoFF fs

/-- No string byte of any element is `0xFF`. -/
def JArr.NoFF : JArr → Prop
  | .nil => True
  | .cons v tl => Json.NoFF v ∧ JArr.NoFF tl

/-- No byte of any key or value is `0xFF`. -/
def JObj.NoFF : JObj → Prop
  | .nil => True
  | .cons k v tl => 255 ∉ k ∧ Json.NoFF v ∧ JObj.NoFF tl

end

/-- No byte of any string of the command is `0xFF` (automatic for the Rust
    `String` fields, which are valid UTF-8). -/
def ipc.Command.NoFF : ipc.Command → Prop
  | .addSynchronousService name wd env group command =>
    255 ∉ name ∧ 255 ∉ wd ∧ (∀ kv ∈ env, 255 ∉ kv.1 ∧ 255 ∉ kv.2) ∧
      (∀ g ∈ group, 255 ∉ g) ∧ (∀ s ∈ command, 255 ∉ s)
  | .addAsynchronousService name wd env group sc tc =>
    255 ∉ name ∧ 255 ∉ wd ∧ (∀ kv ∈ env, 255 ∉ kv.1 ∧ 255 ∉ kv.2) ∧
      (∀ g ∈ group, 255 ∉ g) ∧ (∀ s ∈ sc, 255 ∉ s) ∧ (∀ s ∈ tc, 255 ∉ s)
  | .removeService name => 255 ∉ name
  | .startService name => 255 ∉ name
  | .stopService name => 255 ∉ name
  | .restartService name => 255 ∉ name
  | .getServiceStatus name => 255 ∉ name
  | .listServices => True

/-- No byte of any string of the wire service snapshot is `0xFF`. -/
def ipc.Service.NoFF (s : ipc.Service) : Prop :=
  255 ∉ s.working_directory ∧ (∀ kv ∈ s.environment, 255 ∉ kv.1 ∧ 255 ∉ kv.2) ∧
    (∀ g ∈ s.group, 255 ∉ g) ∧
    (match s.kind with
     | .synchronous c => ∀ x ∈ c, 255 ∉ x
     | .asynchronous a b => (∀ x ∈ a, 255 ∉ x) ∧ (∀ x ∈ b, 255 ∉ x))

/-- No byte of any string of the response is `0xFF`. -/
def ipc.Response.NoFF (r : ipc.Response) : Prop :=
  match r.kind with
  | .none => True
  | .serviceStatus service _ logs => service.NoFF ∧ 255 ∉ logs
  | .serviceList services => ∀ kv ∈ services, 255 ∉ kv.1 ∧ ipc.Service.NoFF kv.2

/-! ## Concrete inputs used by witnesses and counterexamples -/

/-- A world in which the child exits promptly: the very first `try_wait`
    after the first `SIGINT` observes the exit. Signal delivery never
    fails, and a `SIGKILL` on a live process would succeed. -/
def promptStopWorld : service.StopWorld :=
  { sigintRes := fun _ => .ok ()
    tryWaitRes := fun _ => .exited
    killRes := .ok () }

/-- A benign world: spawns succeed and waited commands exit with status 0;
    stopping the retained child succeeds. -/
def okWorld : service.RunWorld :=
  { startSpawn := .ok (.ok 0), stopSpawn := .ok (.ok 0), childStop := .ok () }

/-- A world in which spawn and wait succeed at the OS level but the
    command exits with the unsuccessful status 1. -/
def exitOneWorld : service.RunWorld :=
  { startSpawn := .ok (.ok 1), stopSpawn := .ok (.ok 1), childStop := .ok () }

/-- A world in which stopping the retained synchronous child fails with an
    OS error. -/
def stopFailWorld : service.RunWorld :=
  { startSpawn := .ok (.ok 0), stopSpawn := .ok (.ok 0), childStop := .error (.other 5) }

/-- A fresh asynchronous service (not running). -/
def asyncSvc : service.Service :=
  service.Service.new (ascii "/tmp") [] none
    (.asynchronous [ascii "/bin/true"] [ascii "/bin/true"])

/-- A synchronous service currently running (child handle retained). -/
def runningSyncSvc : service.Service :=
  { service.Service.new (ascii "/tmp") [] none (.synchronous [ascii "/bin/cat"]) with
    child := true }

/-- A registry holding the single running synchronous service `a`. -/
def mgrA : service_manager.ServiceManager :=
  ⟨[(ascii "a", runningSyncSvc)]⟩

/-- An `AddSynchronousService` command with an empty command vector: a
    wire-expressible message whose dispatch reaches `command[0]`. -/
def emptyAddCmd : ipc.Command :=
  .addSynchronousService (ascii "svc") (ascii "/tmp") [] none []

/-- A partial frame: a full JSON document plus one stray byte, with no
    `0xFF` terminator before end-of-stream. -/
def partialFrameBytes : Bytes :=
  renderJson (encodeCommand .listServices) ++ [32]

/-- An environment where the real and effective uids differ and the passwd
    entry's home directory is not `/home/<name>`: `HOME` unset, real uid
    1000 (`alice`, home `/var/lib/alice`), effective uid 0 (`root`, home
    `/root`), and `/home/alice` is the only existing path. -/
def cEnv : OsEnv :=
  { xdg_config_home := none
    home := none
    uid := 1000
    euid := 0
    user_from_uid := fun u =>
      if u = 1000 then some ⟨"alice", "/var/lib/alice"⟩
      else if u = 0 then some ⟨"root", "/root"⟩
      else none
    path_exists := fun p => p == "/home/alice" }

/-- The same environment with the effective uid equal to the real uid, so
    that only the passwd-entry home-directory discrepancy remains. -/
def cEnv2 : OsEnv :=
  { cEnv with euid := 1000 }

/-! ## Theorems: claims C1, C2, C3, C5 -/

/-- Claim C1 (code_bug): the claim says a child that exits promptly after
    the first SIGINT makes `stop()` return success, and that `stop()`
    fails only when signal delivery fails at the OS level. The code
    instead breaks out of the retry loop once `try_wait` has reaped the
    exited child and then unconditionally calls `child.kill()`, which on
    an already-reaped child returns an `InvalidInput` error: in the world
    where SIGINT delivery succeeds and the child exits promptly, `stop()`
    returns an error even though no signal delivery ever failed. -/
theorem C1_stop_fails_after_prompt_exit :
    service.Command.stop promptStopWorld = .error .invalidInput ∧
    (∀ k, promptStopWorld.sigintRes k = .ok ()) ∧
    promptStopWorld.killRes = .ok () := by
  refine ⟨?_, fun k => rfl, rfl⟩
  have hpoll : service.pollLoop promptStopWorld 0 0 = (1, .reaped) := by
    rw [service.pollLoop]
    rfl
  simp [service.Command.stop, service.stopRounds, promptStopWorld] at hpoll ⊢
  rw [hpoll]

/-- Claim C2 (counterexample): the claim says the `running` flag is set
    only when the start command exits successfully, and stays false on an
    unsuccessful exit. In the world where the spawned start command is
    waited on without OS error but exits with status 1, `start()` still
    returns success and sets `async_running`. -/
theorem C2_counterexample_exit_status_ignored :
    exitOneWorld.startSpawn = .ok (.ok 1) ∧
    (service.Service.start exitOneWorld asyncSvc).1 = .ok ∧
    (service.Service.start exitOneWorld asyncSvc).2.async_running = true := by
  refine ⟨rfl, rfl, rfl⟩

/-- Claim C2 (amended): for an asynchronous service started while not
    running, `async_running` becomes true exactly when the start command
    vector is nonempty and its spawn and wait both succeed at the OS
    level, regardless of the command's exit status; symmetrically,
    `stop()` while running clears `async_running` exactly when the stop
    command's spawn and wait succeed at the OS level; and neither
    operation ever retains a child handle (the `child` field is
    untouched). -/
theorem C2_async_running_tracks_os_success :
    ∀ (w : service.RunWorld) (s : service.Service) (sc tc : List Bytes),
      s.kind = .asynchronous sc tc →
      (s.is_running = false →
        ((s.start w).2.async_running = true ↔
          sc ≠ [] ∧ ∃ code, w.startSpawn = .ok (.ok code))) ∧
      (s.is_running = true →
        ((s.stop w).2.async_running = false ↔
          tc ≠ [] ∧ ∃ code, w.stopSpawn = .ok (.ok code))) ∧
      (s.start w).2.child = s.child ∧ (s.stop w).2.child = s.child := by
  intro w s sc tc hk
  have hrun : s.is_running = s.async_running := by
    simp [service.Service.is_running, hk]
  refine ⟨?_, ?_, ?_, ?_⟩
  · intro h
    rw [hrun] at h
    simp only [service.Service.start, hrun, h, if_false, hk, Bool.false_eq_true]
    cases sc with
    | nil => simp [service.Service.start_asynchronous, h]
    | cons a as =>
      cases hsp : w.startSpawn with
      | err e => simp [service.Service.start_asynchronous, hsp, h]
      | ok wait =>
        cases wait with
        | error e => simp [service.Service.start_asynchronous, hsp, h]
        | ok code => simp [service.Service.start_asynchronous, hsp]
  · intro h
    rw [hrun] at h
    simp only [service.Service.stop, hrun, h, Bool.not_true, if_false, hk,
      Bool.false_eq_true]
    cases tc with
    | nil => simp [service.Service.stop_asynchronous, h]
    | cons a as =>
      cases hsp : w.stopSpawn with
      | err e => simp [service.Service.stop_asynchronous, hsp, h]
      | ok wait =>
        cases wait with
        | error e => simp [service.Service.stop_asynchronous, hsp, h]
        | ok code => simp [service.Service.stop_asynchronous, hsp]
  · simp only [service.Service.start, hk]
    cases hr : s.is_running with
    | true => simp
    | false =>
      cases sc with
      | nil => simp [service.Service.start_asynchronous]
      | cons a as =>
        cases hsp : w.startSpawn with
        | err e => simp [service.Service.start_asynchronous, hsp]
        | ok wait => cases wait <;> simp [service.Service.start_asynchronous, hsp]
  · simp only [service.Service.stop, hk]
    cases hr : s.is_running with
    | false => simp
    | true =>
      cases tc with
      | nil => simp [service.Service.stop_asynchronous]
      | cons a as =>
        cases hsp : w.stopSpawn with
        | err e => simp [service.Service.stop_asynchronous, hsp]
        | ok wait => cases wait <;> simp [service.Service.stop_asynchronous, hsp]

/-- Witness for C2's amended theorem at the fresh asynchronous service and
    the benign world. -/
theorem C2_async_running_tracks_os_success_witness :
    asyncSvc.kind = .asynchronous [ascii "/bin/true"] [ascii "/bin/true"] ∧
    asyncSvc.is_running = false ∧
    ((asyncSvc.start okWorld).2.async_running = true ↔
      [ascii "/bin/true"] ≠ [] ∧ ∃ code, okWorld.startSpawn = .ok (.ok code)) :=
  ⟨rfl, rfl,
    (C2_async_running_tracks_os_success okWorld asyncSvc
      [ascii "/bin/true"] [ascii "/bin/true"] rfl).1 rfl⟩

/-- Claim C3: adding a service whose name already exists returns
    `ServiceAlreadyExists`, leaves the registry untouched, and attempts no
    configuration-file write. -/
theorem C3_add_existing_rejected_without_write :
    ∀ (w : service.RunWorld) (m : service_manager.ServiceManager)
      (name wd : Bytes) (env : List (Bytes × Bytes)) (grp : Option Bytes)
      (cmd sc tc : List Bytes),
      (service_manager.lookupSvc m.services name).isSome = true →
      m.add_synchronous w name wd env grp cmd = (.err .serviceAlreadyExists, m, []) ∧
      m.add_asynchronous w name wd env grp sc tc = (.err .serviceAlreadyExists, m, []) := by
  intro w m name wd env grp cmd sc tc h
  constructor
  · simp only [service_manager.ServiceManager.add_synchronous, h, if_true]
  · simp only [service_manager.ServiceManager.add_asynchronous, h, if_true]

/-- Witness for C3 at the one-service registry `mgrA` and its existing
    name `a`. -/
theorem C3_add_existing_rejected_without_write_witness :
    (service_manager.lookupSvc mgrA.services (ascii "a")).isSome = true ∧
    mgrA.add_synchronous okWorld (ascii "a") (ascii "/tmp") [] none [] =
      (.err .serviceAlreadyExists, mgrA, []) :=
  ⟨by decide,
    (C3_add_existing_rejected_without_write okWorld mgrA (ascii "a") (ascii "/tmp")
      [] none [] [] [] (by decide)).1⟩

/-- Claim C5: the response `handle_client` writes carries a non-`None`
    kind only together with status `Ok`; every non-`Ok` status is paired
    with kind `None`. -/
theorem C5_non_ok_status_has_kind_none :
    ∀ (w : service.RunWorld) (c : ipc.Command) (m : service_manager.ServiceManager)
      (r : ipc.Response),
      (handle_client_step w c m).1 = some r →
      r.kind ≠ .none →
      r.status = .ok := by
  intro w c m r hr hk
  unfold handle_client_step at hr
  rcases hdis : dispatchCommand w c m with ⟨res, m2, evs⟩
  rw [hdis] at hr
  cases res with
  | panicked => simp at hr
  | ok kind =>
    simp only [Option.some.injEq] at hr
    rw [← hr]
  | err status =>
    simp only [Option.some.injEq] at hr
    rw [← hr] at hk
    simp at hk

/-- Witness for C5 at a `ListServices` dispatch against the empty
    registry, whose response has the non-`None` kind `ServiceList`. -/
theorem C5_non_ok_status_has_kind_none_witness :
    (handle_client_step okWorld .listServices ⟨[]⟩).1 =
      some ⟨.ok, .serviceList []⟩ ∧
    (ipc.Response.mk .ok (.serviceList [])).status = .ok :=
  ⟨rfl,
    C5_non_ok_status_has_kind_none okWorld .listServices ⟨[]⟩
      ⟨.ok, .serviceList []⟩ rfl (by decide)⟩

/-! ## Frame lemmas about the registry list operations -/

theorem defnOf_start (w : service.RunWorld) (s : service.Service) :
    service_manager.defnOf (s.start w).2 = service_manager.defnOf s := by
  unfold service.Service.start
  split
  · rfl
  · split
    · unfold service.Service.start_synchronous
      split
      · rfl
      · split <;> rfl
    · unfold service.Service.start_asynchronous
      split
      · rfl
      · split
        · rfl
        · split <;> rfl

theorem defnOf_stop (w : service.RunWorld) (s : service.Service) :
    service_manager.defnOf (s.stop w).2 = service_manager.defnOf s := by
  unfold service.Service.stop
  split
  · rfl
  · split
    · unfold service.Service.stop_synchronous
      split
      · split <;> rfl
      · rfl
    · unfold service.Service.stop_asynchronous
      split
      · rfl
      · split
        · rfl
        · split <;> rfl

theorem defnOf_restart (w : service.RunWorld) (s : service.Service) :
    service_manager.defnOf (s.restart w).2 = service_manager.defnOf s := by
  unfold service.Service.restart
  rcases h : s.stop w with ⟨r, s2⟩
  have h2 := defnOf_stop w s
  rw [h] at h2
  cases r with
  | ok => simpa [defnOf_start w s2] using h2
  | panicked => simpa using h2
  | err e => simpa using h2

theorem lookupSvc_updateSvc_other (l : List (Bytes × service.Service))
    (name other : Bytes) (s2 : service.Service) (h : other ≠ name) :
    service_manager.lookupSvc (service_manager.updateSvc l name s2) other =
      service_manager.lookupSvc l other := by
  induction l with
  | nil => rfl
  | cons kv tl ih =>
    rcases kv with ⟨k, s⟩
    simp only [service_manager.updateSvc]
    by_cases hk : k = name
    · subst hk
      simp only [if_pos rfl, service_manager.lookupSvc]
      rw [if_neg (Ne.symm h), if_neg (Ne.symm h)]
    · rw [if_neg hk]
      simp only [service_manager.lookupSvc]
      by_cases hko : k = other
      · rw [if_pos hko, if_pos hko]
      · rw [if_neg hko, if_neg hko, ih]

theorem lookupSvc_updateSvc_self (l : List (Bytes × service.Service))
    (name : Bytes) (s s2 : service.Service)
    (h : service_manager.lookupSvc l name = some s) :
    service_manager.lookupSvc (service_manager.updateSvc l name s2) name = some s2 := by
  induction l with
  | nil => simp [service_manager.lookupSvc] at h
  | cons kv tl ih =>
    rcases kv with ⟨k, s0⟩
    simp only [service_manager.updateSvc]
    by_cases hk : k = name
    · rw [if_pos hk]
      simp only [service_manager.lookupSvc]
      rw [if_pos hk]
    · rw [if_neg hk]
      simp only [service_manager.lookupSvc, if_neg hk] at h ⊢
      exact ih h

theorem defsOf_updateSvc (l : List (Bytes × service.Service)) (name : Bytes)
    (s s2 : service.Service) (hl : service_manager.lookupSvc l name = some s)
    (hd : service_manager.defnOf s2 = service_manager.defnOf s) :
    service_manager.defsOf (service_manager.updateSvc l name s2) =
      service_manager.defsOf l := by
  induction l with
  | nil => simp [service_manager.lookupSvc] at hl
  | cons kv tl ih =>
    rcases kv with ⟨k, s0⟩
    simp only [service_manager.updateSvc]
    by_cases hk : k = name
    · rw [if_pos hk]
      simp only [service_manager.lookupSvc, if_pos hk, Option.some.injEq] at hl
      simp [service_manager.defsOf, hd, hl]
    · rw [if_neg hk]
      simp only [service_manager.lookupSvc, if_neg hk] at hl
      have htl := ih hl
      simp only [service_manager.defsOf, List.map_cons] at htl ⊢
      rw [htl]

theorem keys_updateSvc (l : List (Bytes × service.Service)) (name : Bytes)
    (s2 : service.Service) :
    (service_manager.updateSvc l name s2).map Prod.fst = l.map Prod.fst := by
  induction l with
  | nil => rfl
  | cons kv tl ih =>
    rcases kv with ⟨k, s⟩
    by_cases hk : k = name <;> simp [service_manager.updateSvc, hk, ih]

theorem lookupSvc_eq_none_of_not_mem (l : List (Bytes × service.Service))
    (name : Bytes) (h : name ∉ l.map Prod.fst) :
    service_manager.lookupSvc l name = none := by
  induction l with
  | nil => rfl
  | cons kv tl ih =>
    rcases kv with ⟨k, s⟩
    simp only [List.map_cons, List.mem_cons] at h
    push_neg at h
    have hk : k ≠ name := fun he => h.1 he.symm
    simp [service_manager.lookupSvc, hk, ih h.2]

theorem lookupSvc_removeSvc_self (l : List (Bytes × service.Service))
    (name : Bytes) (h : (l.map Prod.fst).Nodup) :
    service_manager.lookupSvc (service_manager.removeSvc l name) name = none := by
  induction l with
  | nil => rfl
  | cons kv tl ih =>
    rcases kv with ⟨k, s⟩
    simp only [List.map_cons, List.nodup_cons] at h
    by_cases hk : k = name
    · simp only [service_manager.removeSvc, if_pos hk]
      exact lookupSvc_eq_none_of_not_mem tl name (hk ▸ h.1)
    · simp [service_manager.removeSvc, service_manager.lookupSvc, hk, ih h.2]

theorem lookupSvc_append_right (l : List (Bytes × service.Service))
    (name : Bytes) (s0 : service.Service)
    (h : service_manager.lookupSvc l name = none) :
    service_manager.lookupSvc (l ++ [(name, s0)]) name = some s0 := by
  induction l with
  | nil => simp [service_manager.lookupSvc]
  | cons kv tl ih =>
    rcases kv with ⟨k, s⟩
    by_cases hk : k = name
    · simp [service_manager.lookupSvc, hk] at h
    · simp only [service_manager.lookupSvc, if_neg hk] at h
      simp [service_manager.lookupSvc, hk, ih h]

/-- Claim C6: `start`, `stop` and `restart` never attempt a
    configuration-file write, never change any persisted definition or the
    set of registered names, and leave every service other than the named
    one untouched. -/
theorem C6_start_stop_restart_frame :
    ∀ (w : service.RunWorld) (m : service_manager.ServiceManager) (name : Bytes),
      ((m.start w name).2.2 = [] ∧
        service_manager.defsOf (m.start w name).2.1.services =
          service_manager.defsOf m.services ∧
        (m.start w name).2.1.services.map Prod.fst = m.services.map Prod.fst ∧
        (∀ other, other ≠ name →
          service_manager.lookupSvc (m.start w name).2.1.services other =
            service_manager.lookupSvc m.services other)) ∧
      ((m.stop w name).2.2 = [] ∧
        service_manager.defsOf (m.stop w name).2.1.services =
          service_manager.defsOf m.services ∧
        (m.stop w name).2.1.services.map Prod.fst = m.services.map Prod.fst ∧
        (∀ other, other ≠ name →
          service_manager.lookupSvc (m.stop w name).2.1.services other =
            service_manager.lookupSvc m.services other)) ∧
      ((m.restart w name).2.2 = [] ∧
        service_manager.defsOf (m.restart w name).2.1.services =
          service_manager.defsOf m.services ∧
        (m.restart w name).2.1.services.map Prod.fst = m.services.map Prod.fst ∧
        (∀ other, other ≠ name →
          service_manager.lookupSvc (m.restart w name).2.1.services other =
            service_manager.lookupSvc m.services other)) := by
  intro w m name
  refine ⟨?_, ?_, ?_⟩
  · unfold service_manager.ServiceManager.start
    split
    · exact ⟨rfl, rfl, rfl, fun _ _ => rfl⟩
    · rename_i s hl
      split
      · exact ⟨rfl, rfl, rfl, fun _ _ => rfl⟩
      · rename_i r s2 hcon hop
        have hdefn := defnOf_start w s
        rw [hop] at hdefn
        exact ⟨rfl, defsOf_updateSvc m.services name s s2 hl hdefn,
          keys_updateSvc m.services name s2,
          fun other ho => lookupSvc_updateSvc_other m.services name other s2 ho⟩
  · unfold service_manager.ServiceManager.stop
    split
    · exact ⟨rfl, rfl, rfl, fun _ _ => rfl⟩
    · rename_i s hl
      split
      · exact ⟨rfl, rfl, rfl, fun _ _ => rfl⟩
      · rename_i r s2 hcon hop
        have hdefn := defnOf_stop w s
        rw [hop] at hdefn
        exact ⟨rfl, defsOf_updateSvc m.services name s s2 hl hdefn,
          keys_updateSvc m.services name s2,
          fun other ho => lookupSvc_updateSvc_other m.services name other s2 ho⟩
  · unfold service_manager.ServiceManager.restart
    split
    · exact ⟨rfl, rfl, rfl, fun _ _ => rfl⟩
    · rename_i s hl
      split
      · exact ⟨rfl, rfl, rfl, fun _ _ => rfl⟩
      · rename_i r s2 hcon hop
        have hdefn := defnOf_restart w s
        rw [hop] at hdefn
        exact ⟨rfl, defsOf_updateSvc m.services name s s2 hl hdefn,
          keys_updateSvc m.services name s2,
          fun other ho => lookupSvc_updateSvc_other m.services name other s2 ho⟩

/-- Witness for C6 at the one-service registry, stopping service `a` and
    observing service `b` untouched. -/
theorem C6_start_stop_restart_frame_witness :
    ascii "b" ≠ ascii "a" ∧
    service_manager.lookupSvc (mgrA.stop stopFailWorld (ascii "a")).2.1.services
        (ascii "b") =
      service_manager.lookupSvc mgrA.services (ascii "b") :=
  ⟨by decide,
    (C6_start_stop_restart_frame stopFailWorld mgrA (ascii "a")).2.1.2.2.2
      (ascii "b") (by decide)⟩

/-- Claim C7 (counterexample): the claim says a failing underlying
    `Service` stop is reported to the client in the response. Stopping the
    running service `a` in a world where `Command::stop` fails with an OS
    error makes the underlying `Service::stop` return an I/O error, yet
    the response written to the client is `{status: Ok, kind: None}` — the
    failure is not reported (and `ResponseStatus` has no variant that
    could carry it). -/
theorem C7_counterexample_failure_not_reported :
    (runningSyncSvc.stop stopFailWorld).1 = .err (.ioError (.other 5)) ∧
    (handle_client_step stopFailWorld (.stopService (ascii "a")) mgrA).1 =
      some ⟨.ok, .none⟩ := by
  constructor
  · rfl
  · rfl

/-- Claim C7 (amended): a failure of the underlying `Service` start/stop
    during a registry-level operation is only logged — the operation still
    returns `Ok` with kind `None`, indistinguishable from success — while
    the enclosing registry mutation stands: `add_*` keeps the inserted
    service and still persists, `remove` still deletes the entry and
    persists, and `start`/`stop`/`restart` report `Ok`. -/
theorem C7_failures_swallowed_mutations_kept :
    ∀ (w : service.RunWorld) (m : service_manager.ServiceManager) (name : Bytes),
      (∀ s e, service_manager.lookupSvc m.services name = some s →
        (((s.start w).1 = .err e → (m.start w name).1 = .ok .none) ∧
         ((s.stop w).1 = .err e → (m.stop w name).1 = .ok .none) ∧
         ((s.restart w).1 = .err e → (m.restart w name).1 = .ok .none))) ∧
      (∀ wd env grp cmd e s1,
        service_manager.lookupSvc m.services name = none →
        (service.Service.new wd env grp (.synchronous cmd)).start w = (.err e, s1) →
        (m.add_synchronous w name wd env grp cmd).1 = .ok .none ∧
        service_manager.lookupSvc
          (m.add_synchronous w name wd env grp cmd).2.1.services name = some s1 ∧
        (m.add_synchronous w name wd env grp cmd).2.2 ≠ []) ∧
      (∀ wd env grp sc tc e s1,
        service_manager.lookupSvc m.services name = none →
        (service.Service.new wd env grp (.asynchronous sc tc)).start w = (.err e, s1) →
        (m.add_asynchronous w name wd env grp sc tc).1 = .ok .none ∧
        service_manager.lookupSvc
          (m.add_asynchronous w name wd env grp sc tc).2.1.services name = some s1 ∧
        (m.add_asynchronous w name wd env grp sc tc).2.2 ≠ []) ∧
      (∀ s e s2, (m.services.map Prod.fst).Nodup →
        service_manager.lookupSvc m.services name = some s →
        s.is_running = true →
        s.stop w = (.err e, s2) →
        (m.remove w name).1 = .ok .none ∧
        service_manager.lookupSvc (m.remove w name).2.1.services name = none ∧
        (m.remove w name).2.2 ≠ []) := by
  intro w m name
  refine ⟨?_, ?_, ?_, ?_⟩
  · intro s e hl
    refine ⟨?_, ?_, ?_⟩
    · intro hop
      unfold service_manager.ServiceManager.start
      rcases hse : s.start w with ⟨r, s2⟩
      rw [hse] at hop
      simp only [hl, hse]
      cases r with
      | panicked => simp at hop
      | ok => rfl
      | err e2 => rfl
    · intro hop
      unfold service_manager.ServiceManager.stop
      rcases hse : s.stop w with ⟨r, s2⟩
      rw [hse] at hop
      simp only [hl, hse]
      cases r with
      | panicked => simp at hop
      | ok => rfl
      | err e2 => rfl
    · intro hop
      unfold service_manager.ServiceManager.restart
      rcases hse : s.restart w with ⟨r, s2⟩
      rw [hse] at hop
      simp only [hl, hse]
      cases r with
      | panicked => simp at hop
      | ok => rfl
      | err e2 => rfl
  · intro wd env grp cmd e s1 hl hst
    have hns : (service_manager.lookupSvc m.services name).isSome = false := by
      rw [hl]; rfl
    unfold service_manager.ServiceManager.add_synchronous
    rw [hns]
    simp only [Bool.false_eq_true, if_false, hst]
    refine ⟨by trivial, ?_, by simp⟩
    exact lookupSvc_updateSvc_self _ name _ s1
      (lookupSvc_append_right m.services name _ hl)
  · intro wd env grp sc tc e s1 hl hst
    have hns : (service_manager.lookupSvc m.services name).isSome = false := by
      rw [hl]; rfl
    unfold service_manager.ServiceManager.add_asynchronous
    rw [hns]
    simp only [Bool.false_eq_true, if_false, hst]
    refine ⟨by trivial, ?_, by simp⟩
    exact lookupSvc_updateSvc_self _ name _ s1
      (lookupSvc_append_right m.services name _ hl)
  · intro s e s2 hnd hl hr hst
    unfold service_manager.ServiceManager.remove
    simp only [hl, hr, if_true, hst]
    refine ⟨by trivial, ?_, by simp⟩
    apply lookupSvc_removeSvc_self
    rw [keys_updateSvc]
    exact hnd

/-- Witness for C7's amended theorem: stopping the running service `a`
    with a failing child stop still yields an `Ok`/`None` result. -/
theorem C7_failures_swallowed_mutations_kept_witness :
    service_manager.lookupSvc mgrA.services (ascii "a") = some runningSyncSvc ∧
    (runningSyncSvc.stop stopFailWorld).1 = .err (.ioError (.other 5)) ∧
    (mgrA.stop stopFailWorld (ascii "a")).1 = .ok .none :=
  ⟨by decide, by decide,
    ((C7_failures_swallowed_mutations_kept stopFailWorld mgrA (ascii "a")).1
      runningSyncSvc (.ioError (.other 5)) (by decide)).2.1 (by decide)⟩

/-- Claim C8 (counterexample): the claim resolves the fallback home from
    the password-database entry for the effective uid. The code uses the
    real uid and builds `/home/<user name>` instead of the entry's home
    directory. In `cEnv` (real uid 1000 → `alice`, effective uid 0 →
    `root` with home `/root`) the code and the claim's algorithm disagree;
    in `cEnv2` (uids both 1000, `alice`'s passwd home `/var/lib/alice`)
    they disagree again, showing both discrepancies. -/
theorem C8_counterexample_uid_and_home_field :
    get_config_file_path cEnv = some "/home/alice/.userserversd_services.json" ∧
    get_config_file_path_claim cEnv = some "/root/.userserversd_services.json" ∧
    get_config_file_path cEnv2 = some "/home/alice/.userserversd_services.json" ∧
    get_config_file_path_claim cEnv2 = some "/var/lib/alice/.userserversd_services.json" := by
  refine ⟨rfl, rfl, rfl, rfl⟩

/-- Claim C8 (amended): configuration-path resolution as the code performs
    it — `$XDG_CONFIG_HOME/userserversd_services.json` when set; otherwise
    home is `$HOME` or, failing that, `/home/<name>` for the passwd entry
    of the **real** uid provided that directory exists; then
    `<home>/.userserversd_services.json` if it exists or `<home>/.config/`
    does not, else `<home>/.config/userserversd_services.json`. -/
theorem C8_config_path_resolution :
    ∀ env : OsEnv, get_config_file_path env = get_config_file_path_amended env := by
  intro env
  rcases env with ⟨xdg, home, uid, euid, ufu, pe⟩
  cases xdg with
  | some d => rfl
  | none =>
    cases home with
    | some p =>
      simp only [get_config_file_path, get_config_file_path_amended, Option.orElse,
        Option.map_some']
      split <;> simp [*]
    | none =>
      cases hu : ufu uid with
      | none =>
        simp [get_config_file_path, get_config_file_path_amended, Option.orElse, hu]
      | some user =>
        by_cases hpe : pe ("/home/" ++ user.name)
        · simp only [get_config_file_path, get_config_file_path_amended,
            Option.orElse, hu, hpe, if_true, Option.map_some']
          split <;> simp [*]
        · simp [get_config_file_path, get_config_file_path_amended, Option.orElse,
            hu, hpe]

/-! ## Round-trip of the JSON codec: string bodies -/

theorem hexVal_hexDigit (d : Nat) (h : d < 16) : hexVal (hexDigit d) = some d := by
  unfold hexVal hexDigit
  by_cases h10 : d < 10
  · rw [if_pos h10, if_pos (by omega)]
    simp only [Option.some.injEq]
    omega
  · rw [if_neg h10, if_neg (by omega), if_pos (by omega)]
    simp only [Option.some.injEq]
    omega

theorem parseStrBody_escapeByte (b : Nat) (rest : Bytes) :
    parseStrBody (escapeByte b ++ rest) =
      (parseStrBody rest).map fun p => (b :: p.1, p.2) := by
  unfold escapeByte
  split_ifs with h34 h92 h8 h9 h10 h12 h13 hlt
  · subst h34
    simp only [List.cons_append, List.nil_append]
    rw [parseStrBody.eq_def]
    simp [shortUnescape]
  · subst h92
    simp only [List.cons_append, List.nil_append]
    rw [parseStrBody.eq_def]
    simp [shortUnescape]
  · subst h8
    simp only [List.cons_append, List.nil_append]
    rw [parseStrBody.eq_def]
    simp [shortUnescape]
  · subst h9
    simp only [List.cons_append, List.nil_append]
    rw [parseStrBody.eq_def]
    simp [shortUnescape]
  · subst h10
    simp only [List.cons_append, List.nil_append]
    rw [parseStrBody.eq_def]
    simp [shortUnescape]
  · subst h12
    simp only [List.cons_append, List.nil_append]
    rw [parseStrBody.eq_def]
    simp [shortUnescape]
  · subst h13
    simp only [List.cons_append, List.nil_append]
    rw [parseStrBody.eq_def]
    simp [shortUnescape]
  · have h0 : hexVal 48 = some 0 := rfl
    have h1 : hexVal (hexDigit (b / 16)) = some (b / 16) :=
      hexVal_hexDigit _ (by omega)
    have h2 : hexVal (hexDigit (b % 16)) = some (b % 16) :=
      hexVal_hexDigit _ (by omega)
    have hdm : b / 16 * 16 + b % 16 = b := by omega
    have hb : (fun p : Bytes × Bytes => ((b / 16 * 16 + b % 16) :: p.1, p.2)) =
        (fun p : Bytes × Bytes => (b :: p.1, p.2)) := by
      funext p
      rw [hdm]
    simp only [List.cons_append, List.nil_append]
    rw [parseStrBody.eq_def]
    simp [h0, h1, h2]
    rw [← hb]
  · simp only [List.singleton_append]
    rw [parseStrBody.eq_def]
    simp [h34, h92]

theorem parseStrBody_render (s : Bytes) (rest : Bytes) :
    parseStrBody (renderStrBody s ++ 34 :: rest) = some (s, rest) := by
  induction s with
  | nil =>
    simp only [renderStrBody, List.nil_append]
    rw [parseStrBody.eq_def]
    simp
  | cons b tl ih =>
    rw [renderStrBody, List.append_assoc, parseStrBody_escapeByte, ih]
    rfl

/-! ## Round-trip of the JSON codec: values -/

theorem renderJson_head (v : Json) :
    ∃ b t, renderJson v = b :: t ∧ b ≠ 93 ∧ b ≠ 125 := by
  cases v with
  | null => exact ⟨110, _, rfl, by decide, by decide⟩
  | bool b =>
    cases b with
    | true => exact ⟨116, _, rfl, by decide, by decide⟩
    | false => exact ⟨102, _, rfl, by decide, by decide⟩
  | str s => exact ⟨34, _, rfl, by decide, by decide⟩
  | arr es => exact ⟨91, _, rfl, by decide, by decide⟩
  | obj fs => exact ⟨123, _, rfl, by decide, by decide⟩

theorem parseVal_arr_cons (fuel : Nat) (v : Json) (tl : JArr) (rest : Bytes) :
    parseVal (fuel + 1) (91 :: (renderArr (.cons v tl) ++ 93 :: rest)) =
      (parseArrBody fuel (renderArr (.cons v tl) ++ 93 :: rest)).map
        fun p => (Json.arr p.1, p.2) := by
  obtain ⟨b, t, hbt, hb93, _⟩ := renderJson_head v
  have hx : renderArr (.cons v tl) ++ 93 :: rest
      = b :: (t ++ (renderArrTl tl ++ 93 :: rest)) := by
    rw [renderArr, hbt]
    simp [List.append_assoc]
  rw [hx, parseVal.eq_def]
  simp [hb93, ← hx]

theorem parseVal_obj_cons (fuel : Nat) (k : Bytes) (v : Json) (tl : JObj)
    (rest : Bytes) :
    parseVal (fuel + 1) (123 :: (renderObj (.cons k v tl) ++ 125 :: rest)) =
      (parseObjBody fuel (renderObj (.cons k v tl) ++ 125 :: rest)).map
        fun p => (Json.obj p.1, p.2) := by
  have hx : renderObj (.cons k v tl) ++ 125 :: rest
      = 34 :: ((renderStrBody k ++ [34]) ++
          (58 :: (renderJson v ++ renderObjTl tl) ++ 125 :: rest)) := by
    rw [renderObj, renderStr]
    simp [List.append_assoc]
  rw [hx, parseVal.eq_def]
  simp [← hx]

theorem parseArrBody_succ (fuel : Nat) (bs : Bytes) :
    parseArrBody (fuel + 1) bs =
      (match parseVal fuel bs with
       | some (v, r) =>
         match r with
         | [] => none
         | b :: r2 =>
           if b = 93 then some (JArr.cons v .nil, r2)
           else if b = 44 then
             (parseArrBody fuel r2).map fun p => (JArr.cons v p.1, p.2)
           else none
       | none => none) := by
  rw [parseArrBody.eq_def]

theorem parseObjBody_succ (fuel : Nat) (bs : Bytes) :
    parseObjBody (fuel + 1) bs =
      (match bs with
       | [] => none
       | b :: bs1 =>
         if b = 34 then
           match parseStrBody bs1 with
           | some (k, r1) =>
             match r1 with
             | [] => none
             | c :: r2 =>
               if c = 58 then
                 match parseVal fuel r2 with
                 | some (v, r3) =>
                   match r3 with
                   | [] => none
                   | d :: r4 =>
                     if d = 125 then some (JObj.cons k v .nil, r4)
                     else if d = 44 then
                       (parseObjBody fuel r4).map fun p => (JObj.cons k v p.1, p.2)
                     else none
                 | none => none
               else none
           | none => none
         else none) := by
  rw [parseObjBody.eq_def]

mutual

theorem rt_val : ∀ (v : Json) (rest : Bytes) (fuel : Nat), jsizeVal v ≤ fuel →
    parseVal fuel (renderJson v ++ rest) = some (v, rest)
  | .null, rest, 0, h => by simp [jsizeVal] at h
  | .null, _rest, _fuel + 1, _h => by rfl
  | .bool true, rest, 0, h => by simp [jsizeVal] at h
  | .bool true, _rest, _fuel + 1, _h => by rfl
  | .bool false, rest, 0, h => by simp [jsizeVal] at h
  | .bool false, _rest, _fuel + 1, _h => by rfl
  | .str s, rest, 0, h => by simp [jsizeVal] at h
  | .str s, rest, fuel + 1, _h => by
    show parseVal (fuel + 1) ((34 :: (renderStrBody s ++ [34])) ++ rest) = _
    rw [List.cons_append, List.append_assoc, List.singleton_append,
      parseVal.eq_def]
    simp [parseStrBody_render]
  | .arr .nil, rest, 0, h => by simp [jsizeVal] at h
  | .arr .nil, _rest, _fuel + 1, _h => by rfl
  | .arr (.cons v tl), rest, 0, h => by simp [jsizeVal, jsizeArr] at h
  | .arr (.cons v tl), rest, fuel + 1, h => by
    have hf : jsizeArr (.cons v tl) ≤ fuel := by
      simp only [jsizeVal] at h
      omega
    have hs : renderJson (.arr (.cons v tl)) ++ rest
        = 91 :: (renderArr (.cons v tl) ++ 93 :: rest) := by
      rw [renderJson]
      simp [List.append_assoc]
    rw [hs, parseVal_arr_cons, rt_arr v tl rest fuel hf]
    rfl
  | .obj .nil, rest, 0, h => by simp [jsizeVal] at h
  | .obj .nil, _rest, _fuel + 1, _h => by rfl
  | .obj (.cons k v tl), rest, 0, h => by simp [jsizeVal, jsizeObj] at h
  | .obj (.cons k v tl), rest, fuel + 1, h => by
    have hf : jsizeObj (.cons k v tl) ≤ fuel := by
      simp only [jsizeVal] at h
      omega
    have hs : renderJson (.obj (.cons k v tl)) ++ rest
        = 123 :: (renderObj (.cons k v tl) ++ 125 :: rest) := by
      rw [renderJson]
      simp [List.append_assoc]
    rw [hs, parseVal_obj_cons, rt_obj k v tl rest fuel hf]
    rfl

theorem rt_arr : ∀ (v : Json) (tl : JArr) (rest : Bytes) (fuel : Nat),
    jsizeArr (.cons v tl) ≤ fuel →
    parseArrBody fuel (renderArr (.cons v tl) ++ 93 :: rest) =
      some (.cons v tl, rest)
  | v, tl, rest, 0, h => by simp [jsizeArr] at h
  | v, tl, rest, fuel + 1, h => by
    have hv : jsizeVal v ≤ fuel := by
      simp only [jsizeArr] at h
      omega
    have hs : renderArr (.cons v tl) ++ 93 :: rest
        = renderJson v ++ (renderArrTl tl ++ 93 :: rest) := by
      rw [renderArr]
      simp [List.append_assoc]
    rw [parseArrBody_succ, hs, rt_val v _ fuel hv]
    cases tl with
    | nil => simp [renderArrTl]
    | cons v2 tl2 =>
      have h2 : jsizeArr (.cons v2 tl2) ≤ fuel := by
        simp only [jsizeArr] at h ⊢
        omega
      have hr := rt_arr v2 tl2 rest fuel h2
      simp only [renderArr, List.append_assoc] at hr
      simp [renderArrTl, List.append_assoc, hr]

theorem rt_obj : ∀ (k : Bytes) (v : Json) (tl : JObj) (rest : Bytes) (fuel : Nat),
    jsizeObj (.cons k v tl) ≤ fuel →
    parseObjBody fuel (renderObj (.cons k v tl) ++ 125 :: rest) =
      some (.cons k v tl, rest)
  | k, v, tl, rest, 0, h => by simp [jsizeObj] at h
  | k, v, tl, rest, fuel + 1, h => by
    have hv : jsizeVal v ≤ fuel := by
      simp only [jsizeObj] at h
      omega
    have hs : renderObj (.cons k v tl) ++ 125 :: rest
        = 34 :: (renderStrBody k ++
            34 :: (58 :: (renderJson v ++ (renderObjTl tl ++ 125 :: rest)))) := by
      rw [renderObj, renderStr]
      simp [List.append_assoc]
    rw [hs, parseObjBody_succ]
    simp only [parseStrBody_render, rt_val v _ fuel hv]
    cases tl with
    | nil => simp [renderObjTl]
    | cons k2 v2 tl2 =>
      have h2 : jsizeObj (.cons k2 v2 tl2) ≤ fuel := by
        simp only [jsizeObj] at h ⊢
        omega
      have hr := rt_obj k2 v2 tl2 rest fuel h2
      simp only [renderObj, renderStr, List.append_assoc, List.cons_append,
        List.nil_append] at hr
      simpa [renderObjTl, renderStr, List.append_assoc] using hr

end

mutual

theorem jsizeVal_lt_renderLen : ∀ v : Json, jsizeVal v + 1 ≤ (renderJson v).length
  | .null => by simp [jsizeVal, renderJson]
  | .bool true => by simp [jsizeVal, renderJson]
  | .bool false => by simp [jsizeVal, renderJson]
  | .str s => by simp [jsizeVal, renderJson, renderStr]
  | .arr es => by
    have h := jsizeArr_le_renderLen es
    simp only [jsizeVal, renderJson, List.length_cons, List.length_append,
      List.length_singleton]
    omega
  | .obj fs => by
    have h := jsizeObj_le_renderLen fs
    simp only [jsizeVal, renderJson, List.length_cons, List.length_append,
      List.length_singleton]
    omega

theorem jsizeArr_le_renderLen : ∀ es : JArr, jsizeArr es ≤ (renderArr es).length
  | .nil => by simp [jsizeArr, renderArr]
  | .cons v tl => by
    have hv := jsizeVal_lt_renderLen v
    have htl : jsizeArr tl ≤ (renderArrTl tl).length := by
      cases tl with
      | nil => simp [jsizeArr, renderArrTl]
      | cons v2 tl2 =>
        have h2 := jsizeArr_le_renderLen (.cons v2 tl2)
        simp only [renderArrTl, List.length_cons, List.length_append] at h2 ⊢
        simp only [renderArr, List.length_append] at h2
        omega
    simp only [jsizeArr, renderArr, List.length_append]
    omega

theorem jsizeObj_le_renderLen : ∀ fs : JObj, jsizeObj fs ≤ (renderObj fs).length
  | .nil => by simp [jsizeObj, renderObj]
  | .cons k v tl => by
    have hv := jsizeVal_lt_renderLen v
    have htl : jsizeObj tl ≤ (renderObjTl tl).length := by
      cases tl with
      | nil => simp [jsizeObj, renderObjTl]
      | cons k2 v2 tl2 =>
        have h2 := jsizeObj_le_renderLen (.cons k2 v2 tl2)
        simp only [renderObjTl, renderObj, List.length_cons,
          List.length_append] at h2 ⊢
        omega
    simp only [jsizeObj, renderObj, renderStr, List.length_append,
      List.length_cons]
    omega

end

/-- The full-document round-trip: parsing a rendered value with the fuel
    `parseJson` allots recovers exactly the value. -/
theorem parseJson_render (v : Json) : parseJson (renderJson v) = some v := by
  have hle : jsizeVal v ≤ (renderJson v).length + 1 := by
    have := jsizeVal_lt_renderLen v
    omega
  have h := rt_val v [] ((renderJson v).length + 1) hle
  rw [List.append_nil] at h
  unfold parseJson
  rw [h]

/-! ## The rendered bytes never contain the terminator `0xFF` -/

theorem hexDigit_ne_255 (d : Nat) (h : d < 16) : hexDigit d ≠ 255 := by
  unfold hexDigit
  split <;> omega

theorem escapeByte_noFF (b : Nat) (hb : b ≠ 255) : 255 ∉ escapeByte b := by
  unfold escapeByte
  split_ifs with h34 h92 h8 h9 h10 h12 h13 hlt
  · decide
  · decide
  · decide
  · decide
  · decide
  · decide
  · decide
  · have h1 := hexDigit_ne_255 (b / 16) (by omega)
    have h2 := hexDigit_ne_255 (b % 16) (by omega)
    simp [h1, h2]
    omega
  · simp only [List.mem_singleton]
    exact fun he => hb he.symm

theorem renderStrBody_noFF (s : Bytes) (h : 255 ∉ s) : 255 ∉ renderStrBody s := by
  induction s with
  | nil => simp [renderStrBody]
  | cons b tl ih =>
    simp only [List.mem_cons, not_or] at h
    simp only [renderStrBody, List.mem_append, not_or]
    exact ⟨escapeByte_noFF b (fun he => h.1 he.symm), ih h.2⟩

theorem renderStr_noFF (s : Bytes) (h : 255 ∉ s) : 255 ∉ renderStr s := by
  simp only [renderStr, List.mem_cons, List.mem_append, not_or]
  refine ⟨by omega, renderStrBody_noFF s h, by simp⟩

mutual

theorem renderJson_noFF : ∀ v : Json, v.NoFF → 255 ∉ renderJson v
  | .null, _ => by decide
  | .bool true, _ => by decide
  | .bool false, _ => by decide
  | .str s, h => renderStr_noFF s h
  | .arr es, h => by
    have := renderArr_noFF es h
    simp only [renderJson, List.mem_cons, List.mem_append, not_or]
    exact ⟨by omega, this.1, by simp⟩
  | .obj fs, h => by
    have := renderObj_noFF fs h
    simp only [renderJson, List.mem_cons, List.mem_append, not_or]
    exact ⟨by omega, this.1, by simp⟩

theorem renderArr_noFF : ∀ es : JArr, es.NoFF →
    255 ∉ renderArr es ∧ 255 ∉ renderArrTl es
  | .nil, _ => by constructor <;> simp [renderArr, renderArrTl]
  | .cons v tl, h => by
    obtain ⟨hv, htl⟩ := h
    have h1 := renderJson_noFF v hv
    have h2 := renderArr_noFF tl htl
    constructor
    · simp only [renderArr, List.mem_append, not_or]
      exact ⟨h1, h2.2⟩
    · simp only [renderArrTl, List.mem_cons, List.mem_append, not_or]
      exact ⟨by omega, h1, h2.2⟩

theorem renderObj_noFF : ∀ fs : JObj, fs.NoFF →
    255 ∉ renderObj fs ∧ 255 ∉ renderObjTl fs
  | .nil, _ => by constructor <;> simp [renderObj, renderObjTl]
  | .cons k v tl, h => by
    obtain ⟨hk, hv, htl⟩ := h
    have h0 := renderStr_noFF k hk
    have h1 := renderJson_noFF v hv
    have h2 := renderObj_noFF tl htl
    constructor
    · simp only [renderObj, List.mem_append, List.mem_cons, not_or]
      exact ⟨h0, by omega, h1, h2.2⟩
    · simp only [renderObjTl, List.mem_cons, List.mem_append, not_or]
      exact ⟨by omega, h0, by omega, h1, h2.2⟩

end

/-! ## The stream layer -/

theorem takeWhile_append_stop (p : Nat → Bool) (xs ys : Bytes) (a : Nat)
    (hxs : ∀ x ∈ xs, p x = true) (ha : p a = false) :
    (xs ++ a :: ys).takeWhile p = xs := by
  induction xs with
  | nil => simp [List.takeWhile_cons, ha]
  | cons x tl ih =>
    have hx : p x = true := hxs x (by simp)
    simp only [List.cons_append, List.takeWhile_cons, hx, if_true]
    rw [ih (fun y hy => hxs y (by simp [hy]))]

theorem takeWhile_all (p : Nat → Bool) (xs : Bytes) (h : ∀ x ∈ xs, p x = true) :
    xs.takeWhile p = xs := by
  induction xs with
  | nil => rfl
  | cons b tl ih =>
    simp only [List.takeWhile_cons, h b (by simp), if_true]
    rw [ih fun x hx => h x (by simp [hx])]

theorem drop_frame (payload rest : Bytes) :
    (payload ++ 255 :: rest).drop (payload.length + 1) = rest := by
  have h : payload ++ 255 :: rest = (payload ++ [255]) ++ rest := by simp
  rw [h, show payload.length + 1 = (payload ++ [255]).length from by simp,
    List.drop_left]

/-- `read_from_stream` on a stream that begins with a full frame: consume
    exactly the payload and its terminator, parse the payload, decode. -/
theorem read_from_stream_frame {α : Type} (dec : Json → Option α)
    (payload rest : Bytes) (h255 : 255 ∉ payload) :
    read_from_stream dec (payload ++ 255 :: rest) =
      (match (parseJson payload).bind dec with
       | some v => .ok (some v, rest)
       | none => .error .invalidData) := by
  simp only [read_from_stream]
  rw [takeWhile_append_stop _ payload rest 255
    (fun x hx => by
      simp only [decide_eq_true_eq]
      exact fun he => h255 (he ▸ hx))
    (by simp)]
  have hlen : payload.length < (payload ++ 255 :: rest).length := by
    simp [List.length_append]
  rw [decide_eq_true hlen]
  simp only [if_true, drop_frame]
  have hne : (payload ++ [255]).isEmpty = false := by
    cases payload <;> rfl
  rw [hne]
  simp only [Bool.false_eq_true, if_false, List.dropLast_concat]
  rfl

/-! ## Decoding inverts encoding for the message types -/

theorem decodeStrArrAux_jStrArr (xs : List Bytes) :
    decodeStrArrAux (jStrArr xs) = some xs := by
  induction xs with
  | nil => rfl
  | cons s tl ih =>
    simp only [jStrArr] at ih
    simp [jStrArr, decodeStrArrAux, ih]

theorem decodeStrList_jStrArr (xs : List Bytes) :
    decodeStrList (.arr (jStrArr xs)) = some xs := by
  simp [decodeStrList, decodeStrArrAux_jStrArr]

theorem decodeStrMapAux_jStrMap (env : List (Bytes × Bytes)) :
    decodeStrMapAux (jStrMap env) = some env := by
  induction env with
  | nil => rfl
  | cons kv tl ih =>
    simp only [jStrMap] at ih
    simp [jStrMap, decodeStrMapAux, ih]

theorem decodeStrMap_jStrMap (env : List (Bytes × Bytes)) :
    decodeStrMap (.obj (jStrMap env)) = some env := by
  simp [decodeStrMap, decodeStrMapAux_jStrMap]

theorem decodeOptStr_jOptStr (g : Option Bytes) :
    decodeOptStr (some (jOptStr g)) = some g := by
  cases g <;> rfl

theorem decodeServiceKind_encode (k : ipc.ServiceKind) :
    decodeServiceKind (encodeServiceKind k) = some k := by
  cases k with
  | synchronous c =>
    simp +decide [encodeServiceKind, decodeServiceKind, JObj.find,
      decodeStrList_jStrArr]
  | asynchronous a b =>
    simp +decide [encodeServiceKind, decodeServiceKind, JObj.find,
      decodeStrList_jStrArr]

theorem decodeService_encode (s : ipc.Service) :
    decodeService (encodeService s) = some s := by
  rcases s with ⟨wd, env, g, k⟩
  simp +decide [encodeService, decodeService, JObj.find, decodeStr,
    decodeStrMap_jStrMap, decodeOptStr_jOptStr, decodeServiceKind_encode]

theorem decodeServiceMapAux_jServiceMap (xs : List (Bytes × ipc.Service)) :
    decodeServiceMapAux (jServiceMap xs) = some xs := by
  induction xs with
  | nil => rfl
  | cons kv tl ih =>
    simp only [jServiceMap] at ih
    simp [jServiceMap, decodeServiceMapAux, decodeService_encode, ih]

theorem decodeCommand_encode (c : ipc.Command) :
    decodeCommand (encodeCommand c) = some c := by
  cases c with
  | addSynchronousService n wd env g cmd =>
    simp +decide [encodeCommand, decodeCommand, JObj.find, decodeStr,
      decodeStrMap_jStrMap, decodeOptStr_jOptStr, decodeStrList_jStrArr]
  | addAsynchronousService n wd env g sc tc =>
    simp +decide [encodeCommand, decodeCommand, JObj.find, decodeStr,
      decodeStrMap_jStrMap, decodeOptStr_jOptStr, decodeStrList_jStrArr]
  | removeService n =>
    simp +decide [encodeCommand, decodeCommand, JObj.find, decodeStr]
  | startService n =>
    simp +decide [encodeCommand, decodeCommand, JObj.find, decodeStr]
  | stopService n =>
    simp +decide [encodeCommand, decodeCommand, JObj.find, decodeStr]
  | restartService n =>
    simp +decide [encodeCommand, decodeCommand, JObj.find, decodeStr]
  | getServiceStatus n =>
    simp +decide [encodeCommand, decodeCommand, JObj.find, decodeStr]
  | listServices => rfl

theorem decodeResponse_encode (r : ipc.Response) :
    decodeResponse (encodeResponse r) = some r := by
  rcases r with ⟨st, k⟩
  cases k with
  | none =>
    cases st <;>
      simp +decide [encodeResponse, decodeResponse, encodeStatus, decodeStatus,
        encodeResponseKind, decodeResponseKind, JObj.find]
  | serviceStatus svc run logs =>
    cases st <;>
      simp +decide [encodeResponse, decodeResponse, encodeStatus, decodeStatus,
        encodeResponseKind, decodeResponseKind, JObj.find, decodeStr,
        decodeService_encode]
  | serviceList services =>
    cases st <;>
      simp +decide [encodeResponse, decodeResponse, encodeStatus, decodeStatus,
        encodeResponseKind, decodeResponseKind, JObj.find, decodeServiceMap,
        decodeServiceMapAux_jServiceMap]

/-! ## Wellformed messages encode without the terminator byte -/

theorem jsonNoFF_str (s : Bytes) (h : 255 ∉ s) : Json.NoFF (.str s) := by
  simp [Json.NoFF, h]

theorem jStrArr_noFF (xs : List Bytes) (h : ∀ s ∈ xs, 255 ∉ s) :
    JArr.NoFF (jStrArr xs) := by
  induction xs with
  | nil => simp [jStrArr, JArr.NoFF]
  | cons s tl ih =>
    simp only [jStrArr] at ih ⊢
    exact ⟨jsonNoFF_str s (h s (by simp)), ih fun x hx => h x (by simp [hx])⟩

theorem jStrMap_noFF (env : List (Bytes × Bytes))
    (h : ∀ kv ∈ env, 255 ∉ kv.1 ∧ 255 ∉ kv.2) : JObj.NoFF (jStrMap env) := by
  induction env with
  | nil => simp [jStrMap, JObj.NoFF]
  | cons kv tl ih =>
    simp only [jStrMap] at ih ⊢
    refine ⟨(h kv (by simp)).1, jsonNoFF_str _ (h kv (by simp)).2, ?_⟩
    exact ih fun x hx => h x (by simp [hx])

theorem jOptStr_noFF (g : Option Bytes) (h : ∀ x ∈ g, 255 ∉ x) :
    Json.NoFF (jOptStr g) := by
  cases g with
  | none => simp [jOptStr, Json.NoFF]
  | some s => exact jsonNoFF_str s (h s rfl)

theorem encodeServiceKind_noFF (k : ipc.ServiceKind)
    (h : match k with
         | .synchronous c => ∀ x ∈ c, 255 ∉ x
         | .asynchronous a b => (∀ x ∈ a, 255 ∉ x) ∧ (∀ x ∈ b, 255 ∉ x)) :
    Json.NoFF (encodeServiceKind k) := by
  cases k with
  | synchronous c =>
    simp only [encodeServiceKind, Json.NoFF, JObj.NoFF]
    exact ⟨by decide, ⟨by decide, jStrArr_noFF c h, trivial⟩, trivial⟩
  | asynchronous a b =>
    simp only [encodeServiceKind, Json.NoFF, JObj.NoFF]
    exact ⟨by decide, ⟨by decide, jStrArr_noFF a h.1,
      by decide, jStrArr_noFF b h.2, trivial⟩, trivial⟩

theorem encodeService_noFF (s : ipc.Service) (h : s.NoFF) :
    Json.NoFF (encodeService s) := by
  obtain ⟨hw, he, hg, hk⟩ := h
  simp only [encodeService, Json.NoFF, JObj.NoFF]
  exact ⟨by decide, jsonNoFF_str _ hw, by decide, jStrMap_noFF _ he,
    by decide, jOptStr_noFF _ hg, by decide, encodeServiceKind_noFF _ hk,
    trivial⟩

theorem encodeCommand_noFF (c : ipc.Command) (h : c.NoFF) :
    Json.NoFF (encodeCommand c) := by
  cases c with
  | addSynchronousService n wd env g cmd =>
    obtain ⟨hn, hw, he, hg, hc⟩ := h
    simp only [encodeCommand, Json.NoFF, JObj.NoFF]
    exact ⟨by decide, ⟨by decide, jsonNoFF_str _ hn, by decide,
      jsonNoFF_str _ hw, by decide, jStrMap_noFF _ he, by decide,
      jOptStr_noFF _ hg, by decide, jStrArr_noFF _ hc, trivial⟩, trivial⟩
  | addAsynchronousService n wd env g sc tc =>
    obtain ⟨hn, hw, he, hg, hs, ht⟩ := h
    simp only [encodeCommand, Json.NoFF, JObj.NoFF]
    exact ⟨by decide, ⟨by decide, jsonNoFF_str _ hn, by decide,
      jsonNoFF_str _ hw, by decide, jStrMap_noFF _ he, by decide,
      jOptStr_noFF _ hg, by decide, jStrArr_noFF _ hs, by decide,
      jStrArr_noFF _ ht, trivial⟩, trivial⟩
  | removeService n =>
    simp only [encodeCommand, Json.NoFF, JObj.NoFF]
    exact ⟨by decide, ⟨by decide, jsonNoFF_str _ h, trivial⟩, trivial⟩
  | startService n =>
    simp only [encodeCommand, Json.NoFF, JObj.NoFF]
    exact ⟨by decide, ⟨by decide, jsonNoFF_str _ h, trivial⟩, trivial⟩
  | stopService n =>
    simp only [encodeCommand, Json.NoFF, JObj.NoFF]
    exact ⟨by decide, ⟨by decide, jsonNoFF_str _ h, trivial⟩, trivial⟩
  | restartService n =>
    simp only [encodeCommand, Json.NoFF, JObj.NoFF]
    exact ⟨by decide, ⟨by decide, jsonNoFF_str _ h, trivial⟩, trivial⟩
  | getServiceStatus n =>
    simp only [encodeCommand, Json.NoFF, JObj.NoFF]
    exact ⟨by decide, ⟨by decide, jsonNoFF_str _ h, trivial⟩, trivial⟩
  | listServices =>
    simp only [encodeCommand, Json.NoFF]
    decide

theorem jServiceMap_noFF (xs : List (Bytes × ipc.Service))
    (h : ∀ kv ∈ xs, 255 ∉ kv.1 ∧ ipc.Service.NoFF kv.2) :
    JObj.NoFF (jServiceMap xs) := by
  induction xs with
  | nil => simp [jServiceMap, JObj.NoFF]
  | cons kv tl ih =>
    simp only [jServiceMap] at ih ⊢
    refine ⟨(h kv (by simp)).1, encodeService_noFF _ (h kv (by simp)).2, ?_⟩
    exact ih fun x hx => h x (by simp [hx])

theorem encodeResponse_noFF (r : ipc.Response) (h : r.NoFF) :
    Json.NoFF (encodeResponse r) := by
  rcases r with ⟨st, k⟩
  have hst : Json.NoFF (encodeStatus st) := by
    cases st <;> (simp only [encodeStatus, Json.NoFF]; decide)
  cases k with
  | none =>
    simp only [encodeResponse, Json.NoFF, JObj.NoFF, encodeResponseKind]
    exact ⟨by decide, hst, by decide, by decide, trivial⟩
  | serviceStatus svc run logs =>
    obtain ⟨hsvc, hlogs⟩ := h
    simp only [encodeResponse, Json.NoFF, JObj.NoFF, encodeResponseKind]
    exact ⟨by decide, hst, by decide,
      ⟨by decide, ⟨by decide, encodeService_noFF _ hsvc, by decide,
        by cases run <;> trivial, by decide, jsonNoFF_str _ hlogs, trivial⟩,
        trivial⟩, trivial⟩
  | serviceList services =>
    simp only [encodeResponse, Json.NoFF, JObj.NoFF, encodeResponseKind]
    exact ⟨by decide, hst, by decide,
      ⟨by decide, ⟨by decide, jServiceMap_noFF _ h, trivial⟩, trivial⟩, trivial⟩

/-! ## Theorems: claims C4, C9, C10 -/

theorem fillSize_pos (fills : List Nat) : 1 ≤ fillSize fills := by
  cases fills with
  | nil => simp [fillSize]
  | cons f t => simp [fillSize]

/-- One unfolding of `bufReadUntil` on a nonempty stream. -/
theorem bufReadUntil_step (fills : List Nat) (stream : Bytes)
    (hs : stream ≠ []) :
    bufReadUntil fills stream =
      if ((stream.take (fillSize fills)).takeWhile (fun b => b ≠ 255)).length <
          (stream.take (fillSize fills)).length then
        ((stream.take (fillSize fills)).takeWhile (fun b => b ≠ 255) ++ [255],
          stream.drop (fillSize fills))
      else
        (stream.take (fillSize fills) ++
            (bufReadUntil fills.tail (stream.drop (fillSize fills))).1,
          (bufReadUntil fills.tail (stream.drop (fillSize fills))).2) := by
  rw [bufReadUntil.eq_def, dif_neg hs]

/-- Reading a stream that begins with a terminator-free payload and its
    terminator: whatever the fill schedule, the caller receives exactly
    the payload and terminator, and what remains on the stream is some
    suffix of the post-terminator bytes (the final fill's over-read is
    discarded with the dropped `BufReader`). -/
theorem bufReadUntil_frame_aux :
    ∀ (n0 : Nat) (payload : Bytes), payload.length ≤ n0 →
    ∀ (fills : List Nat) (rest : Bytes), 255 ∉ payload →
    ∃ k, bufReadUntil fills (payload ++ 255 :: rest) =
      (payload ++ [255], rest.drop k) := by
  intro n0
  induction n0 with
  | zero =>
    intro payload hlen fills rest h255
    have hp : payload = [] := List.eq_nil_of_length_eq_zero (Nat.le_zero.mp hlen)
    subst hp
    obtain ⟨m, hm⟩ : ∃ m, fillSize fills = m + 1 :=
      ⟨fillSize fills - 1, by have := fillSize_pos fills; omega⟩
    refine ⟨m, ?_⟩
    rw [List.nil_append, bufReadUntil_step fills _ (by simp), hm,
      List.take_succ_cons, List.drop_succ_cons]
    simp [List.takeWhile_cons]
  | succ m ih =>
    intro payload hlen fills rest h255
    have hn1 : 1 ≤ fillSize fills := fillSize_pos fills
    rw [bufReadUntil_step fills _ (by simp)]
    by_cases hc : payload.length < fillSize fills
    · refine ⟨fillSize fills - payload.length - 1, ?_⟩
      have htake : (payload ++ 255 :: rest).take (fillSize fills)
          = payload ++ 255 :: rest.take (fillSize fills - payload.length - 1) := by
        rw [List.take_append_eq_append_take,
          List.take_of_length_le (le_of_lt hc)]
        congr 1
        have he : fillSize fills - payload.length
            = (fillSize fills - payload.length - 1) + 1 := by omega
        rw [he, List.take_succ_cons]
        simp
      have hdrop : (payload ++ 255 :: rest).drop (fillSize fills)
          = rest.drop (fillSize fills - payload.length - 1) := by
        rw [List.drop_append_eq_append_drop,
          List.drop_eq_nil_of_le (le_of_lt hc), List.nil_append]
        have he : fillSize fills - payload.length
            = (fillSize fills - payload.length - 1) + 1 := by omega
        rw [he, List.drop_succ_cons]
        simp
      rw [htake, hdrop,
        takeWhile_append_stop _ payload _ 255
          (fun x hx => by
            simp only [decide_eq_true_eq]
            exact fun he => h255 (he ▸ hx))
          (by simp)]
      rw [if_pos (by simp only [List.length_append, List.length_cons]; omega)]
    · push_neg at hc
      have htake : (payload ++ 255 :: rest).take (fillSize fills)
          = payload.take (fillSize fills) := by
        rw [List.take_append_eq_append_take,
          show fillSize fills - payload.length = 0 from by omega]
        simp
      have hdrop : (payload ++ 255 :: rest).drop (fillSize fills)
          = payload.drop (fillSize fills) ++ 255 :: rest := by
        rw [List.drop_append_eq_append_drop,
          show fillSize fills - payload.length = 0 from by omega]
        simp
      rw [htake, hdrop,
        takeWhile_all _ _
          (fun x hx => by
            simp only [decide_eq_true_eq]
            exact fun he => h255 (he ▸ List.take_subset _ payload hx))]
      rw [if_neg (lt_irrefl _)]
      have h255d : 255 ∉ payload.drop (fillSize fills) :=
        fun hmem => h255 (List.drop_subset _ payload hmem)
      have hlend : (payload.drop (fillSize fills)).length ≤ m := by
        simp only [List.length_drop]
        omega
      obtain ⟨k, hk⟩ := ih (payload.drop (fillSize fills)) hlend fills.tail rest h255d
      refine ⟨k, ?_⟩
      rw [hk]
      rw [show payload.take (fillSize fills) ++ (payload.drop (fillSize fills) ++ [255])
          = payload ++ [255] from by
        rw [← List.append_assoc, List.take_append_drop]]

/-- The buffered read of a stream beginning with a full frame: decode the
    payload; the remainder of the stream is a suffix of the bytes after
    the terminator. -/
theorem read_from_stream_buffered_frame {α : Type} (dec : Json → Option α)
    (fills : List Nat) (payload rest : Bytes) (h255 : 255 ∉ payload) :
    ∃ k, read_from_stream_buffered dec fills (payload ++ 255 :: rest) =
      (match (parseJson payload).bind dec with
       | some v => .ok (some v, rest.drop k)
       | none => .error .invalidData) := by
  obtain ⟨k, hk⟩ :=
    bufReadUntil_frame_aux payload.length payload le_rfl fills rest h255
  refine ⟨k, ?_⟩
  unfold read_from_stream_buffered
  rw [hk]
  have hne : (payload ++ [255]).isEmpty = false := by
    cases payload <;> rfl
  simp only [hne, Bool.false_eq_true, if_false, List.dropLast_concat]
  rfl

/-- Claim C4 (counterexample): the claim says decoding consumes exactly
    the encoded bytes through the terminator. The code creates a fresh
    `BufReader` per read; a fill that pulls in bytes past the terminator
    discards them when the reader is dropped. With two back-to-back
    encoded `ListServices` frames on the stream and a full buffer fill,
    the first read returns the first message but leaves an **empty**
    stream: the entire second frame was consumed and lost, not exactly
    the first frame's bytes. -/
theorem C4_counterexample_buffered_overread :
    ipc.Command.listServices.write_to_stream ≠ ([] : Bytes) ∧
    read_from_stream_buffered decodeCommand []
        (ipc.Command.listServices.write_to_stream ++
          ipc.Command.listServices.write_to_stream) =
      .ok (some .listServices, []) := by
  constructor
  · decide
  · unfold read_from_stream_buffered
    rw [bufReadUntil.eq_def]
    rfl

/-- Claim C4 (amended): encoding a `Command` or `Response` (its JSON bytes
    followed by the terminator `0xFF`) and then decoding from the
    resulting byte stream yields back the same message for every fill
    schedule of the per-call `BufReader`; at least the encoded bytes
    through the terminator are consumed, and what remains on the stream is
    a suffix of the bytes that followed the frame (the final fill's
    over-read past the terminator is discarded when the `BufReader` is
    dropped). When the frame is the last data on the stream, exactly the
    encoded bytes are consumed. The wellformedness hypothesis records that
    the Rust `String` fields are valid UTF-8 and hence contain no `0xFF`
    byte. -/
theorem C4_codec_roundtrip_buffered :
    (∀ (fills : List Nat) (c : ipc.Command) (rest : Bytes), c.NoFF →
      ∃ k, read_from_stream_buffered decodeCommand fills
          (c.write_to_stream ++ rest) = .ok (some c, rest.drop k)) ∧
    (∀ (fills : List Nat) (c : ipc.Command), c.NoFF →
      read_from_stream_buffered decodeCommand fills c.write_to_stream =
        .ok (some c, [])) ∧
    (∀ (fills : List Nat) (r : ipc.Response) (rest : Bytes), r.NoFF →
      ∃ k, read_from_stream_buffered decodeResponse fills
          (r.write_to_stream ++ rest) = .ok (some r, rest.drop k)) ∧
    (∀ (fills : List Nat) (r : ipc.Response), r.NoFF →
      read_from_stream_buffered decodeResponse fills r.write_to_stream =
        .ok (some r, [])) := by
  have hc : ∀ (fills : List Nat) (c : ipc.Command) (rest : Bytes), c.NoFF →
      ∃ k, read_from_stream_buffered decodeCommand fills
          (c.write_to_stream ++ rest) = .ok (some c, rest.drop k) := by
    intro fills c rest h
    obtain ⟨k, hk⟩ := read_from_stream_buffered_frame decodeCommand fills
      (renderJson (encodeCommand c)) rest
      (renderJson_noFF _ (encodeCommand_noFF c h))
    refine ⟨k, ?_⟩
    rw [ipc.Command.write_to_stream, write_to_stream, List.append_assoc,
      List.singleton_append, hk, parseJson_render]
    simp [decodeCommand_encode]
  have hr : ∀ (fills : List Nat) (r : ipc.Response) (rest : Bytes), r.NoFF →
      ∃ k, read_from_stream_buffered decodeResponse fills
          (r.write_to_stream ++ rest) = .ok (some r, rest.drop k) := by
    intro fills r rest h
    obtain ⟨k, hk⟩ := read_from_stream_buffered_frame decodeResponse fills
      (renderJson (encodeResponse r)) rest
      (renderJson_noFF _ (encodeResponse_noFF r h))
    refine ⟨k, ?_⟩
    rw [ipc.Response.write_to_stream, write_to_stream, List.append_assoc,
      List.singleton_append, hk, parseJson_render]
    simp [decodeResponse_encode]
  refine ⟨hc, ?_, hr, ?_⟩
  · intro fills c h
    obtain ⟨k, hk⟩ := hc fills c [] h
    rw [List.append_nil] at hk
    rw [hk, List.drop_nil]
  · intro fills r h
    obtain ⟨k, hk⟩ := hr fills r [] h
    rw [List.append_nil] at hk
    rw [hk, List.drop_nil]

/-- Witness for C4's amended theorem at a command and a response with
    every field shape populated, each the last data on its stream. -/
theorem C4_codec_roundtrip_buffered_witness :
    (ipc.Command.addSynchronousService (ascii "svc") (ascii "/tmp")
        [(ascii "K", ascii "V")] (some (ascii "grp")) [ascii "/bin/sh"]).NoFF ∧
    read_from_stream_buffered decodeCommand [3]
        (ipc.Command.addSynchronousService (ascii "svc") (ascii "/tmp")
          [(ascii "K", ascii "V")] (some (ascii "grp"))
          [ascii "/bin/sh"]).write_to_stream =
      .ok (some (.addSynchronousService (ascii "svc") (ascii "/tmp")
        [(ascii "K", ascii "V")] (some (ascii "grp")) [ascii "/bin/sh"]), []) ∧
    (ipc.Response.mk .ok (.serviceStatus
        ⟨ascii "/tmp", [(ascii "K", ascii "V")], some (ascii "grp"),
          .synchronous [ascii "/bin/sh"]⟩ true (ascii "hi"))).NoFF ∧
    read_from_stream_buffered decodeResponse []
        (ipc.Response.mk .ok (.serviceStatus
          ⟨ascii "/tmp", [(ascii "K", ascii "V")], some (ascii "grp"),
            .synchronous [ascii "/bin/sh"]⟩ true (ascii "hi"))).write_to_stream =
      .ok (some (ipc.Response.mk .ok (.serviceStatus
        ⟨ascii "/tmp", [(ascii "K", ascii "V")], some (ascii "grp"),
          .synchronous [ascii "/bin/sh"]⟩ true (ascii "hi"))), []) :=
  ⟨by simp only [ipc.Command.NoFF]; decide,
    C4_codec_roundtrip_buffered.2.1 [3] _
      (by simp only [ipc.Command.NoFF]; decide),
    by simp only [ipc.Response.NoFF, ipc.Service.NoFF]; decide,
    C4_codec_roundtrip_buffered.2.2.2 [] _
      (by simp only [ipc.Response.NoFF, ipc.Service.NoFF]; decide)⟩

/-- Claim C9 (amended): a read from an exhausted stream is a clean close
    (no message, no error); a read of a partial frame (bytes but no
    `0xFF` before end-of-stream) consumes everything, strips the final
    byte — a data byte, since no terminator was found — and parses what
    remains, so it returns an I/O error exactly when those bytes fail to
    parse as a message, and otherwise returns a (mis-framed) decoded
    message. -/
theorem C9_clean_close_and_partial_frame :
    (∀ (α : Type) (dec : Json → Option α),
      read_from_stream dec [] = .ok (none, [])) ∧
    (∀ (α : Type) (dec : Json → Option α) (bs : Bytes), bs ≠ [] → 255 ∉ bs →
      read_from_stream dec bs =
        (match (parseJson bs.dropLast).bind dec with
         | some v => .ok (some v, [])
         | none => .error .invalidData)) := by
  constructor
  · intro α dec
    rfl
  · intro α dec bs hne h255
    simp only [read_from_stream]
    rw [takeWhile_all _ bs
      (fun x hx => by
        simp only [decide_eq_true_eq]
        exact fun he => h255 (he ▸ hx))]
    rw [decide_eq_false (lt_irrefl bs.length)]
    have hie : bs.isEmpty = false := by
      cases bs with
      | nil => exact absurd rfl hne
      | cons a tl => rfl
    simp only [Bool.false_eq_true, if_false, hie]
    rfl

/-- Witness for C9's amended theorem: the one-byte partial frame `[110]`
    strips to `[]`, which fails to parse, so the read errors. -/
theorem C9_clean_close_and_partial_frame_witness :
    ([110] : Bytes) ≠ [] ∧ (255 : Nat) ∉ ([110] : Bytes) ∧
    read_from_stream decodeCommand [110] = .error .invalidData :=
  ⟨by decide, by decide,
    (C9_clean_close_and_partial_frame.2 ipc.Command decodeCommand [110]
      (by decide) (by decide)).trans (by rfl)⟩

/-- Claim C9 (counterexample): the claim says a partial frame always
    yields an I/O error rather than a decoded message. The terminator-free
    stream holding the JSON of `ListServices` plus one stray byte decodes
    to `Some ListServices` with no error. -/
theorem C9_counterexample_partial_frame_decodes :
    partialFrameBytes ≠ [] ∧ (255 : Nat) ∉ partialFrameBytes ∧
    ipc.Command.read_from_stream partialFrameBytes =
      .ok (some .listServices, []) := by
  refine ⟨by decide, by decide, by rfl⟩

/-- Claim C10: starting a service indexes `command[0]` with no guard —
    with an empty command vector the spawn panics (for synchronous and
    asynchronous kinds alike), while any nonempty command never reaches
    the panic; and the public interface accepts an `AddSynchronousService`
    with an empty command list (it round-trips on the wire), whose
    dispatch reaches the unguarded indexing and panics. -/
theorem C10_empty_command_unguarded_indexing :
    (∀ (w : service.RunWorld) (s : service.Service),
      s.kind = .synchronous [] → s.is_running = false →
      s.start w = (.panicked, s)) ∧
    (∀ (w : service.RunWorld) (s : service.Service) (tc : List Bytes),
      s.kind = .asynchronous [] tc → s.is_running = false →
      s.start w = (.panicked, s)) ∧
    (∀ (w : service.RunWorld) (s : service.Service) (c : Bytes) (cs : List Bytes),
      s.kind = .synchronous (c :: cs) → (s.start w).1 ≠ .panicked) ∧
    ipc.Command.read_from_stream (ipc.Command.write_to_stream emptyAddCmd) =
      .ok (some emptyAddCmd, []) ∧
    (∀ w : service.RunWorld, (dispatchCommand w emptyAddCmd ⟨[]⟩).1 = .panicked) := by
  refine ⟨?_, ?_, ?_, ?_, ?_⟩
  · intro w s hk hr
    simp [service.Service.start, hk, hr, service.Service.start_synchronous]
  · intro w s tc hk hr
    simp [service.Service.start, hk, hr, service.Service.start_asynchronous]
  · intro w s c cs hk
    unfold service.Service.start
    by_cases hr : s.is_running
    · simp [hr]
    · simp only [hr, Bool.false_eq_true, if_false, hk,
        service.Service.start_synchronous]
      cases hsp : w.startSpawn <;> simp
  · rfl
  · intro w
    rfl

/-- Witness for C10 at a concrete empty-command synchronous service. -/
theorem C10_empty_command_unguarded_indexing_witness :
    (service.Service.new (ascii "/tmp") [] none (.synchronous [])).kind =
      .synchronous [] ∧
    (service.Service.new (ascii "/tmp") [] none (.synchronous [])).is_running =
      false ∧
    (service.Service.new (ascii "/tmp") [] none
        (.synchronous [])).start okWorld =
      (.panicked, service.Service.new (ascii "/tmp") [] none (.synchronous [])) :=
  ⟨rfl, rfl,
    C10_empty_command_unguarded_indexing.1 okWorld
      (service.Service.new (ascii "/tmp") [] none (.synchronous [])) rfl rfl⟩

end Usd
